import Mathlib

/-!
# abstract-socket-proxy: discovery, tag injection, merge and response handling

A shallow embedding of `proxy.go` (and the test data of `proxy_test.go`).

Conventions of the embedding.

* A Go `string` is modelled by the list of its code points (`Str`).  Every
  separator the program searches for (`"\n"`, `" "`, `","`, `"@"`) is a single
  ASCII character, so on well-formed UTF-8 text the byte-level and the
  code-point-level behaviour of `strings.Split`, `strings.ReplaceAll`,
  `strings.HasPrefix` and `strings.TrimSpace` coincide.
* A Go `map[string]V` is modelled by an association list with distinct keys,
  kept in insertion order (`GoMap V`).  Wherever the program ranges over a map,
  the order is supplied from outside (an order oracle), because Go leaves it
  unspecified.
* A Go `error` is modelled by its message text.
* Library code that is not part of the repository (the compiled regular
  expression, the exposition decoder and encoder, the transport, the registry
  gatherer) is taken as a parameter.
-/

namespace AbstractSocketProxy

/-! ## Strings -/

/-- A Go string, as the list of its code points. -/
abbrev Str := List Char

/-- A Go error value, as its message text. -/
abbrev GoError := Str

/-- Go `strings.Split(s, sep)` for a separator of one character: the pieces of
`s` between the occurrences of `sep`; always at least one piece. -/
def Split : Str → Char → List Str
  | [], _ => [[]]
  | c :: cs, sep =>
    if c = sep then [] :: Split cs sep
    else
      match Split cs sep with
      | [] => [[c]]
      | p :: ps => (c :: p) :: ps

/-- Go `strings.ReplaceAll(s, old, new)` for an `old` of one character. -/
def ReplaceAll : Str → Char → Str → Str
  | [], _, _ => []
  | c :: cs, old, new =>
    if c = old then new ++ ReplaceAll cs old new else c :: ReplaceAll cs old new

/-- Go `strings.HasPrefix(s, prefix)`. -/
def HasPrefix (s pre : Str) : Bool :=
  pre.isPrefixOf s

/-- Go `unicode.IsSpace`: the Latin-1 spaces and the other code points with the
Unicode White_Space property. -/
def isSpace (c : Char) : Bool :=
  let n := c.toNat
  (0x09 ≤ n && n ≤ 0x0D) || n == 0x20 || n == 0x85 || n == 0xA0 || n == 0x1680 ||
  (0x2000 ≤ n && n ≤ 0x200A) || n == 0x2028 || n == 0x2029 || n == 0x202F ||
  n == 0x205F || n == 0x3000

/-- Removes the trailing characters that satisfy `p`. -/
def trimRight (p : Char → Bool) : Str → Str
  | [] => []
  | c :: cs =>
    match trimRight p cs with
    | [] => if p c then [] else [c]
    | r :: rs => c :: r :: rs

/-- Go `strings.TrimSpace(s)`: `s` without its leading and trailing white space. -/
def TrimSpace (s : Str) : Str :=
  trimRight isSpace (s.dropWhile isSpace)

/-! ## Go maps -/

/-- A Go `map[string]V`: distinct keys, in insertion order. -/
abbrev GoMap (V : Type) := List (Str × V)

/-- Go `m[k] = v`: overwrites the value of an existing key, adds a new key. -/
def mapStore {V : Type} : GoMap V → Str → V → GoMap V
  | [], k, v => [(k, v)]
  | (k0, v0) :: rest, k, v =>
    if k0 = k then (k, v) :: rest else (k0, v0) :: mapStore rest k v

/-- Go `_, found := m[k]`. -/
def mapFound {V : Type} (m : GoMap V) (k : Str) : Bool :=
  (List.lookup k m).isSome

/-- The keys of a map. -/
def mapKeys {V : Type} (m : GoMap V) : List Str :=
  m.map Prod.fst

/-! ## Discovery: `parseSocketAddrs` -/

/-- What the program uses of a compiled `*regexp.Regexp`:
`FindStringSubmatch` (the empty list stands for the `nil` of "no match";
otherwise entry `0` is the whole match and entry `i` the text of group `i`) and
`SubexpNames` (entry `0` is the empty name of the whole match, an unnamed group
has the empty name). -/
structure Regexp where
  FindStringSubmatch : Str → List Str
  SubexpNames : List Str

/-- The `socketAddr` struct. -/
structure socketAddr where
  addr : Str
  tags : GoMap Str
  deriving DecidableEq, Repr

/-- The loop `for i, name := range matchPattern.SubexpNames()` of
`parseSocketAddrs`, started at index `i` with the rest `names` of the name
list: `if i != 0 && name != "" { tags[name] = match[i] }`. -/
def tagsLoop (m : List Str) : Nat → List Str → GoMap Str → GoMap Str
  | _, [], tags => tags
  | i, name :: names, tags =>
    tagsLoop m (i + 1) names
      (if i ≠ 0 ∧ name ≠ [] then mapStore tags name (m.getD i []) else tags)

/-- One iteration of `for _, line := range lines` in `parseSocketAddrs`. -/
def parseLine (re : Regexp) (socketAddrs : GoMap socketAddr) (line : Str) :
    GoMap socketAddr :=
  let ss := Split line ' '
  if ss.length ≠ 8 then socketAddrs
  else
    let addr := ss.getD 7 []
    let m := re.FindStringSubmatch addr
    if m.length = 0 then socketAddrs
    else
      let addr := ReplaceAll addr '@' []
      if mapFound socketAddrs addr then socketAddrs
      else
        let tags := tagsLoop m 0 re.SubexpNames []
        mapStore socketAddrs addr { addr := addr, tags := tags }

/-- The function `parseSocketAddrs`; `matchPattern` is the package variable of
that name (`none` for the nil pointer). -/
def parseSocketAddrs (matchPattern : Option Regexp) (body : Str) :
    Except GoError (GoMap socketAddr) :=
  match matchPattern with
  | none => .error "matchPattern not set".toList
  | some re => .ok ((Split body '\n').foldl (parseLine re) [])

/-! ## Metric families -/

/-- The enum `dto.MetricType`. -/
inductive MetricType where
  | COUNTER
  | GAUGE
  | SUMMARY
  | UNTYPED
  | HISTOGRAM
  deriving DecidableEq, Repr

/-- The struct `dto.LabelPair` (both pointers set). -/
structure LabelPair where
  Name : Str
  Value : Str
  deriving DecidableEq, Repr

/-- The struct `dto.Metric`.  The program reads and writes `Label` only; the
value and timestamp fields are carried along as one uninterpreted component. -/
structure Metric where
  Label : List LabelPair
  Data : Nat
  deriving DecidableEq, Repr

/-- The struct `dto.MetricFamily`.  `Name` is dereferenced by the merge loop, so
it is a set pointer; `Type_` is the field `Type`. -/
structure MetricFamily where
  Name : Str
  Help : Str
  Type_ : MetricType
  Metric : List Metric
  deriving DecidableEq, Repr

/-- A byte slice. -/
abbrev Bytes := List Nat

/-! ## Merge loop of `aggregateSocketMetrics` -/

/-- The body of the inner merge loop: `key := *mf.Name`; when `metricsMap[key]`
is found, `oldmf.Metric = append(oldmf.Metric, mf.Metric...)` (the map entry
points to `oldmf`, so the entry changes in place), otherwise
`metricsMap[key] = mf`. -/
def mergeFamily (metricsMap : GoMap MetricFamily) (mf : MetricFamily) :
    GoMap MetricFamily :=
  let key := mf.Name
  match List.lookup key metricsMap with
  | some oldmf => mapStore metricsMap key { oldmf with Metric := oldmf.Metric ++ mf.Metric }
  | none => mapStore metricsMap key mf

/-- The merge loop `for i := range socketMetricsList { for j := range
socketMetrics { ... } }`, from the empty `metricsMap`. -/
def mergeLoop (socketMetricsList : List (List MetricFamily)) : GoMap MetricFamily :=
  socketMetricsList.foldl (fun metricsMap socketMetrics => socketMetrics.foldl mergeFamily metricsMap) []

/-! ## Tag injection: `parsePrometheusMetrics` -/

/-- The `expfmt` text decoder on a body: the families that successive `Decode`
calls yield, and the error that ends the stream (`none` for `io.EOF`). -/
structure Decoder where
  decode : Bytes → List MetricFamily × Option GoError

/-- The order in which `for k, v := range tags` visits the pairs of `tags` at
the sample `j` of the family `i`: some rearrangement of the pairs. -/
structure RangeOrder where
  order : Nat → Nat → GoMap Str → GoMap Str
  perm : ∀ i j tags, (order i j tags).Perm tags

/-- The loop `for k, v := range tags { metric.Label = append(metric.Label,
&dto.LabelPair{...}) }` over the pairs in the order visited. -/
def appendLabels (label : List LabelPair) (visited : GoMap Str) : List LabelPair :=
  visited.foldl (fun l kv => l ++ [{ Name := kv.1, Value := kv.2 }]) label

/-- The loop `for j := range metricList` of `parsePrometheusMetrics`, from
index `j`, in the family of index `i`. -/
def injectLoop (ord : RangeOrder) (tags : GoMap Str) (i : Nat) : Nat → List Metric → List Metric
  | _, [] => []
  | j, metric :: rest =>
    { metric with Label := appendLabels metric.Label (ord.order i j tags) } ::
      injectLoop ord tags i (j + 1) rest

/-- Go `strings.Compare(a, b) < 0`. -/
def strLess : Str → Str → Bool
  | _, [] => false
  | [], _ :: _ => true
  | a :: as, b :: bs => a.toNat < b.toNat || (a.toNat == b.toNat && strLess as bs)

/-- Inserts `mf` into a list sorted by name, after the families whose name is
not greater. -/
def insertByName (mf : MetricFamily) : List MetricFamily → List MetricFamily
  | [] => [mf]
  | g :: rest => if strLess mf.Name g.Name then mf :: g :: rest else g :: insertByName mf rest

/-- The call `sort.SliceStable(list, less)` with `less` comparing names: the
stable ascending sort by name. -/
def sortByName (list : List MetricFamily) : List MetricFamily :=
  list.foldl (fun sorted mf => insertByName mf sorted) []

/-- The decode loop of `parsePrometheusMetrics`: `i` families decoded so far,
`yields` still to come from the decoder, then the ending error `last`. -/
def decodeLoop (ord : RangeOrder) (tags : GoMap Str) (last : Option GoError) :
    Nat → List MetricFamily → List MetricFamily → Except GoError (List MetricFamily)
  | _, [], list =>
    match last with
    | none => .ok list
    | some err => .error err
  | i, mf :: yields, list =>
    decodeLoop ord tags last (i + 1) yields
      (list ++ [{ mf with Metric := injectLoop ord tags i 0 mf.Metric }])

/-- The function `parsePrometheusMetrics`; `.error` stands for the return
`nil, err`. -/
def parsePrometheusMetrics (dec : Decoder) (ord : RangeOrder) (tags : GoMap Str)
    (body : Bytes) : Except GoError (List MetricFamily) :=
  match decodeLoop ord tags (dec.decode body).2 0 (dec.decode body).1 [] with
  | .ok list => .ok (sortByName list)
  | .error err => .error err

/-! ## Compression negotiation: `gzipAccepted` -/

/-- The type `http.Header`. -/
abbrev Header := GoMap (List Str)

/-- Go `header.Get(key)` for a key in canonical form: the first value stored
under the key, the empty string when there is none. -/
def headerGet (header : Header) (key : Str) : Str :=
  match List.lookup key header with
  | some (v :: _) => v
  | _ => []

/-- The constant `acceptEncodingHeader`. -/
def acceptEncodingHeader : Str := "Accept-Encoding".toList

/-- The loop `for _, part := range parts` of `gzipAccepted`. -/
def gzipLoop : List Str → Bool
  | [] => false
  | part :: parts =>
    let part := TrimSpace part
    if part = "gzip".toList ∨ HasPrefix part "gzip;".toList = true then true
    else gzipLoop parts

/-- The function `gzipAccepted`. -/
def gzipAccepted (header : Header) : Bool :=
  let a := headerGet header acceptEncodingHeader
  let parts := Split a ','
  gzipLoop parts

/-! ## The request: `processMetricsRequest` and `aggregateSocketMetrics` -/

/-- The process-wide collectors registered in `init`: the gauge
`listeningSocketCount`, the counters `scrapeCount` and `scrapeFailedCount`, and
the observations of `scrapeDurationsHistogram`. -/
structure Collectors where
  listeningSocketCount : Nat
  scrapeCount : Nat
  scrapeFailedCount : Nat
  scrapeDurations : List Int
  deriving DecidableEq, Repr

/-- One piece of output: a family written by a successful `encoder.Encode`, or
text written by `w.Write`. -/
inductive Chunk where
  | family (mf : MetricFamily)
  | text (s : Str)
  deriving DecidableEq, Repr

/-- What the `http.ResponseWriter` received: the headers set, the argument of
`WriteHeader` (`none` when it was never called, the server then answers 200),
the chunks written to it directly, and the chunks written through the gzip
writer (`none` when no compression is used), which follow the direct ones. -/
structure Response where
  header : GoMap Str
  status : Option Nat
  plain : List Chunk
  compressed : Option (List Chunk)
  deriving DecidableEq, Repr

/-- The collaborators of one request, all outside the repository or outside
the program: the package variable `matchPattern`, the content of
`/proc/net/unix`, the transport `doGet(addr, defaultTimeout, *metricsPath)`,
the decoder, the order of `range tags` per endpoint, the registry gatherer
(reading the collectors), `expfmt.Negotiate`, the outcome of the `n`-th call
of `encoder.Encode`, the order in which the results of the goroutines arrive
on the channel, the order of `range metricsMap`, and the measured duration. -/
structure Env where
  matchPattern : Option Regexp
  readUnixSocketFile : Except GoError Str
  doGet : Str → Except GoError Bytes
  decoder : Decoder
  tagOrder : Str → RangeOrder
  gather : Collectors → Except GoError (List MetricFamily)
  negotiate : Header → Str
  encode : Nat → MetricFamily → Option GoError
  arrival : GoMap socketAddr → List socketAddr
  arrival_perm : ∀ m, (arrival m).Perm (m.map Prod.snd)
  rangeMetrics : GoMap MetricFamily → List MetricFamily
  rangeMetrics_perm : ∀ m, (rangeMetrics m).Perm (m.map Prod.snd)
  elapsed : Int

/-- The encoder with its writer: the number of `Encode` calls made and the
chunks written. -/
structure Writer where
  calls : Nat
  out : List Chunk
  deriving DecidableEq, Repr

/-- The function `encodeMetricFamily`, and likewise the last loop of
`aggregateSocketMetrics`: encode in turn, return the first error. -/
def encodeMetricFamily (env : Env) : List MetricFamily → Writer → Writer × Option GoError
  | [], w => (w, none)
  | mf :: mfs, w =>
    match env.encode w.calls mf with
    | some err => ({ w with calls := w.calls + 1 }, some err)
    | none => encodeMetricFamily env mfs { calls := w.calls + 1, out := w.out ++ [Chunk.family mf] }

/-- The function `getSocketAddrs`. -/
def getSocketAddrs (env : Env) : Except GoError (GoMap socketAddr) :=
  match env.readUnixSocketFile with
  | .error err => .error err
  | .ok body => parseSocketAddrs env.matchPattern body

/-- The function `getSocketMetrics`; `.error` stands for `nil, err`. -/
def getSocketMetrics (env : Env) (addr : Str) (tags : GoMap Str) :
    Except GoError (List MetricFamily) :=
  match env.doGet addr with
  | .error err => .error err
  | .ok body => parsePrometheusMetrics env.decoder (env.tagOrder addr) tags body

/-- The state a request works on: the collectors, the encoder, and the
addresses handed to `doGet` so far. -/
structure State where
  collectors : Collectors
  writer : Writer
  fetched : List Str
  deriving DecidableEq, Repr

/-- The loop `for socketMetrics := range results`: the non-nil results. -/
def collectResults : List (Except GoError (List MetricFamily)) → List (List MetricFamily)
  | [] => []
  | .ok socketMetrics :: rest => socketMetrics :: collectResults rest
  | .error _ :: rest => collectResults rest

/-- The function `aggregateSocketMetrics`.  The goroutines are independent of
one another; their results are taken in the order of arrival on the channel. -/
def aggregateSocketMetrics (env : Env) (st : State) : State × Option GoError :=
  match getSocketAddrs env with
  | .error err => (st, some err)
  | .ok socketAddrs =>
    let st := { st with collectors := { st.collectors with listeningSocketCount := socketAddrs.length } }
    if socketAddrs.length = 0 then (st, none)
    else
      let jobs := env.arrival socketAddrs
      let results := jobs.map (fun sa => getSocketMetrics env sa.addr sa.tags)
      let st := { st with fetched := st.fetched ++ jobs.map (fun sa => sa.addr) }
      let socketMetricsList := collectResults results
      if socketMetricsList.length = 0 then (st, none)
      else
        let metricsMap := mergeLoop socketMetricsList
        let r := encodeMetricFamily env (env.rangeMetrics metricsMap) st.writer
        ({ st with writer := r.1 }, r.2)

/-- The constant `contentTypeHeader`. -/
def contentTypeHeader : Str := "Content-Type".toList

/-- The constant `contentEncodingHeader`. -/
def contentEncodingHeader : Str := "Content-Encoding".toList

/-- The constant `http.StatusInternalServerError`. -/
def StatusInternalServerError : Nat := 500

/-- What one request leaves behind. -/
structure Outcome where
  response : Response
  collectors : Collectors
  fetched : List Str
  deriving DecidableEq, Repr

/-- The deferred calls of `processMetricsRequest`: `gz.Close()` hands the
compressed stream to the response, then the duration is observed. -/
def finishRequest (env : Env) (gz : Bool) (header : GoMap Str) (status : Option Nat)
    (plain : List Chunk) (st : State) : Outcome :=
  { response :=
      { header := header
        status := status
        plain := if gz then plain else plain ++ st.writer.out
        compressed := if gz then some st.writer.out else none }
    collectors := { st.collectors with scrapeDurations := st.collectors.scrapeDurations ++ [env.elapsed] }
    fetched := st.fetched }

/-- The function `processMetricsRequest` on the request header `header`, from
the collectors `c`. -/
def processMetricsRequest (env : Env) (header : Header) (c : Collectors) : Outcome :=
  let c := { c with scrapeCount := c.scrapeCount + 1 }
  let contentType := env.negotiate header
  let respHeader := mapStore [] contentTypeHeader contentType
  let gz := gzipAccepted header
  let respHeader := if gz then mapStore respHeader contentEncodingHeader "gzip".toList else respHeader
  let st : State := { collectors := c, writer := { calls := 0, out := [] }, fetched := [] }
  match env.gather c with
  | .error err =>
    finishRequest env gz respHeader (some StatusInternalServerError) [Chunk.text err] st
  | .ok mfs =>
    let st := { st with writer := (encodeMetricFamily env mfs st.writer).1 }
    let r := aggregateSocketMetrics env st
    match r.2 with
    | some _ =>
      finishRequest env gz respHeader none []
        { r.1 with collectors := { r.1.collectors with scrapeFailedCount := r.1.collectors.scrapeFailedCount + 1 } }
    | none => finishRequest env gz respHeader none [] r.1

/-! ## Vocabulary of the properties -/

/-- The families of `fs` whose name is `X`, in order. -/
def familiesNamed (X : Str) (fs : List MetricFamily) : List MetricFamily :=
  fs.filter (fun f => decide (f.Name = X))

/-- The samples one endpoint result contributes to the family `X`, in order. -/
def samplesNamed (X : Str) (socketMetrics : List MetricFamily) : List Metric :=
  (familiesNamed X socketMetrics).flatMap (fun f => f.Metric)

/-- The label made from one pair of `tags`. -/
def tagLabel (kv : Str × Str) : LabelPair :=
  { Name := kv.1, Value := kv.2 }

/-- The families the decode loop appends to `list`, the first having index `i`. -/
def injectedFrom (ord : RangeOrder) (tags : GoMap Str) : Nat → List MetricFamily → List MetricFamily
  | _, [] => []
  | i, mf :: yields =>
    { mf with Metric := injectLoop ord tags i 0 mf.Metric } :: injectedFrom ord tags (i + 1) yields

/-- Sample `after` is sample `before` with tags injected: same data, and the
label list of `before`, unchanged, followed by one label per pair of `tags`
(in some order), so that the label count grows by the number of tags. -/
def InjectedMetric (tags : GoMap Str) (before after : Metric) : Prop :=
  after.Data = before.Data ∧
  after.Label.length = before.Label.length + tags.length ∧
  ∃ added : List LabelPair, added.Perm (tags.map tagLabel) ∧ after.Label = before.Label ++ added

/-- Family `after` is family `before` with tags injected into every sample:
same name, help and kind, the samples in the same order. -/
def InjectedFamily (tags : GoMap Str) (before after : MetricFamily) : Prop :=
  after.Name = before.Name ∧ after.Help = before.Help ∧ after.Type_ = before.Type_ ∧
  List.Forall₂ (InjectedMetric tags) before.Metric after.Metric

/-- The string that `parseSocketAddrs` takes as `addr`: `ss[7]`, the eighth
piece of `strings.Split(line, " ")`. -/
def eighthPiece (line : Str) : Str :=
  (Split line ' ').getD 7 []

/-- The two guards of the loop body of `parseSocketAddrs` let the line through:
`len(ss) == 8` and `len(match) != 0`.  This is the test the program makes, not
the notion of a qualifying line of the specification (see `qualifies`). -/
def passesGuards (re : Regexp) (line : Str) : Prop :=
  (Split line ' ').length = 8 ∧ re.FindStringSubmatch (eighthPiece line) ≠ []

instance (re : Regexp) (line : Str) : Decidable (passesGuards re line) :=
  inferInstanceAs (Decidable (_ ∧ _))

/-- The key under which `parseSocketAddrs` stores a line:
`strings.ReplaceAll(addr, "@", "")`.  This is what the program computes, not
the normalized address of the specification (see `normalizedAddr`). -/
def storedKey (line : Str) : Str :=
  ReplaceAll (eighthPiece line) '@' []

/-- The map entry the program makes from a line that passes the guards. -/
def entryOf (re : Regexp) (line : Str) : Str × socketAddr :=
  (storedKey line,
   { addr := storedKey line,
     tags := tagsLoop (re.FindStringSubmatch (eighthPiece line)) 0 re.SubexpNames [] })

/-- Go `strings.Join(lines, sep)` for a separator of one character: the text
whose lines are `lines`. -/
def joinLines : List Str → Char → Str
  | [], _ => []
  | [l], _ => l
  | l :: l2 :: rest, sep => l ++ sep :: joinLines (l2 :: rest) sep

/-- The pieces of `s` between white space characters, empty pieces included. -/
def splitSpace : Str → List Str
  | [] => [[]]
  | c :: cs =>
    if isSpace c then [] :: splitSpace cs
    else
      match splitSpace cs with
      | [] => [[c]]
      | p :: ps => (c :: p) :: ps

/-- The whitespace-separated fields of a line, a run of white space being one
separator (Go `strings.Fields`). -/
def whitespaceFields (s : Str) : List Str :=
  (splitSpace s).filter (fun f => decide (f ≠ []))

/-- Go `strings.Trim(s, "@")`: `s` without the `@` at its head and at its tail. -/
def trimSentinel (s : Str) : Str :=
  trimRight (fun c => decide (c = '@')) (s.dropWhile (fun c => decide (c = '@')))

/-- The address field of a line: the eighth of its whitespace-separated
fields. -/
def addressField (line : Str) : Str :=
  (whitespaceFields line).getD 7 []

/-- A line qualifies when it has exactly eight whitespace-separated fields and
the pattern matches the eighth, the address field. -/
def qualifies (re : Regexp) (line : Str) : Prop :=
  (whitespaceFields line).length = 8 ∧ re.FindStringSubmatch (addressField line) ≠ []

instance (re : Regexp) (line : Str) : Decidable (qualifies re line) :=
  inferInstanceAs (Decidable (_ ∧ _))

/-- The normalized address of a line: its address field without the sentinel
`@` at the head and at the tail. -/
def normalizedAddr (line : Str) : Str :=
  trimSentinel (addressField line)

/-- White space occurs in the line only as single spaces between its fields:
the line is empty, or cutting it at each space leaves pieces that are not
empty and hold no white space. -/
def singleSpaced (line : Str) : Prop :=
  line = [] ∨ ∀ piece ∈ Split line ' ', piece ≠ [] ∧ ∀ c ∈ piece, isSpace c = false

instance (line : Str) : Decidable (singleSpaced line) :=
  inferInstanceAs (Decidable (_ ∨ _))

/-- A line is plain when white space occurs in it only as single spaces
between its fields and its address field has no `@` strictly inside, that is
none left once the `@` at the head and at the tail are removed. -/
def plainLine (line : Str) : Prop :=
  singleSpaced line ∧ '@' ∉ normalizedAddr line

instance (line : Str) : Decidable (plainLine line) :=
  inferInstanceAs (Decidable (_ ∧ _))

/-- Whether a call returned a non-nil error. -/
def failed {α : Type} : Except GoError α → Bool
  | .error _ => true
  | .ok _ => false

/-- The number of discovered endpoints whose fetch or decode fails in a
request served in `env`. -/
def failedEndpoints (env : Env) : Nat :=
  match getSocketAddrs env with
  | .error _ => 0
  | .ok socketAddrs =>
    (socketAddrs.filter (fun p => failed (getSocketMetrics env p.2.addr p.2.tags))).length

/-- Everything written to the response, the directly written chunks first. -/
def bodyChunks (r : Response) : List Chunk :=
  r.plain ++ r.compressed.getD []

/-! ## Concrete inputs -/

/-- A request header with the single `Accept-Encoding` value `v`. -/
def acceptEncoding (v : Str) : Header :=
  [(acceptEncodingHeader, [v])]

/-- A family with the given name and kind whose samples carry the given data
and no label. -/
def exFamily (name : Str) (kind : MetricType) (data : List Nat) : MetricFamily :=
  { Name := name, Help := [], Type_ := kind, Metric := data.map (fun d => { Label := [], Data := d }) }

/-- Three endpoint results; the second declares the family `a` as a counter,
the others as a gauge. -/
def exResults : List (List MetricFamily) :=
  [[exFamily "a".toList MetricType.GAUGE [1, 2], exFamily "b".toList MetricType.GAUGE [3]],
   [exFamily "a".toList MetricType.COUNTER [4]],
   [exFamily "b".toList MetricType.GAUGE [5, 6], exFamily "a".toList MetricType.GAUGE [7]]]

/-- The order of `range tags` that visits the pairs as stored. -/
def storedOrder : RangeOrder :=
  { order := fun _ _ tags => tags, perm := fun _ _ tags => List.Perm.refl tags }

/-- The order of `range tags` that visits the pairs in reverse. -/
def reverseOrder : RangeOrder :=
  { order := fun _ _ tags => tags.reverse, perm := fun _ _ tags => List.reverse_perm tags }

/-- One decoded family whose only sample already has a label named `sandbox`. -/
def exDecoded : List MetricFamily :=
  [{ Name := "up".toList, Help := [], Type_ := MetricType.GAUGE,
     Metric := [{ Label := [{ Name := "sandbox".toList, Value := "x".toList }], Data := 1 }] }]

/-- A decoder that yields `exDecoded` and then ends with `io.EOF`. -/
def exDecoder : Decoder :=
  { decode := fun _ => (exDecoded, none) }

/-- Tags with the key `sandbox`, which is also a label name in `exDecoded`. -/
def exTags : GoMap Str :=
  [("sandbox".toList, "abc".toList), ("pod".toList, "p1".toList)]

/-- A compiled pattern anchored at both ends that matches the one string
`target`, its groups, named `names`, then matching the texts `groups`.  For
instance `^(?P<n>a)(?P<n>b)$` is `exactPattern "ab" ["a", "b"] ["n", "n"]`. -/
def exactPattern (target : Str) (groups names : List Str) : Regexp :=
  { FindStringSubmatch := fun s => if s = target then s :: groups else []
    SubexpNames := [] :: names }

/-- The sandbox id in the test data of `proxy_test.go`. -/
def sandboxId : Str :=
  "fb76908c5f81e5820226357191af190b8623fa914932926196d80a8a5587161b".toList

/-- The `shim.sock` address of the test data. -/
def shimAddr : Str :=
  "@/containerd-shim/k8s.io/".toList ++ sandboxId ++ "/shim.sock@".toList

/-- The `shim-monitor.sock` address of the test data. -/
def monitorAddr : Str :=
  "@/containerd-shim/k8s.io/".toList ++ sandboxId ++ "/shim-monitor.sock@".toList

/-- The address the test expects as key. -/
def monitorKey : Str :=
  "/containerd-shim/k8s.io/".toList ++ sandboxId ++ "/shim-monitor.sock".toList

/-- The variable `data` of `proxy_test.go`, line by line. -/
def dataLines : List Str :=
  [[],
   "cat /proc/net/unix | grep shim".toList,
   "ffffa0b075262000: 00000002 00000000 00010000 0001 01 25032547 ".toList ++ shimAddr,
   "ffffa0b1997e8800: 00000002 00000000 00010000 0001 01 25034882 ".toList ++ monitorAddr,
   "ffffa0b19aa77800: 00000003 00000000 00000000 0001 03 25034159 ".toList ++ shimAddr,
   "ffffa0b17ab70000: 00000003 00000000 00000000 0001 03 25034860 ".toList ++ shimAddr,
   []]

/-- The variable `data` of `proxy_test.go`. -/
def data : Str :=
  joinLines dataLines '\n'

/-- The compiled pattern `^@g@$`. -/
def gPattern : Regexp :=
  exactPattern "@g@".toList [] []

/-- A line with a run of two spaces: seven whitespace-separated fields, eight
pieces between single spaces. -/
def runLine : Str :=
  "ffffa0b1997e8800: 00000002 00000000 00010000 0001  25034882 @g@".toList

/-- The compiled pattern `^@/run/a@b\.sock@$`. -/
def atPattern : Regexp :=
  exactPattern "@/run/a@b.sock@".toList [] []

/-- A line whose address has the sentinel `@` also inside. -/
def atLine : Str :=
  "ffffa0b1997e8800: 00000002 00000000 00010000 0001 01 25034882 @/run/a@b.sock@".toList

/-- The compiled pattern `^(?P<n>a)(?P<n>b)$`: two groups with the same name. -/
def dupPattern : Regexp :=
  exactPattern "ab".toList ["a".toList, "b".toList] ["n".toList, "n".toList]

/-- A line whose address `ab` the pattern `dupPattern` matches. -/
def dupLine : Str :=
  "ffffa0b1997e8800: 00000002 00000000 00010000 0001 01 25034882 ab".toList

/-- A pattern such as `^@(?P<sandbox>[AB])@$`, on the addresses `@A@` and `@B@`. -/
def abPattern : Regexp :=
  { FindStringSubmatch := fun s =>
      if s = "@A@".toList then [s, "A".toList]
      else if s = "@B@".toList then [s, "B".toList]
      else []
    SubexpNames := [[], "sandbox".toList] }

/-- A snapshot with the two listening sockets `@A@` and `@B@`. -/
def abBody : Str :=
  "f: 00000002 00000000 00010000 0001 01 1 @A@\nf: 00000002 00000000 00010000 0001 01 2 @B@".toList

/-- A family of the process itself, as gathered from the registry. -/
def selfFamily : MetricFamily :=
  exFamily "prom_proxy_scrape_count".toList MetricType.COUNTER [1]

/-- A request environment: the sockets `A` and `B` are discovered, the fetch
from `A` is refused, `B` answers and its body decodes to `exDecoded`; the
gatherer and the encoder never fail. -/
def abEnv : Env :=
  { matchPattern := some abPattern
    readUnixSocketFile := .ok abBody
    doGet := fun addr =>
      if addr = "A".toList then .error "dial unix: connect: connection refused".toList
      else .ok []
    decoder := exDecoder
    tagOrder := fun _ => storedOrder
    gather := fun _ => .ok [selfFamily]
    negotiate := fun _ => "text/plain; version=0.0.4".toList
    encode := fun _ _ => none
    arrival := fun m => m.map Prod.snd
    arrival_perm := fun _ => List.Perm.refl _
    rangeMetrics := fun m => m.map Prod.snd
    rangeMetrics_perm := fun _ => List.Perm.refl _
    elapsed := 0 }

/-- As `abEnv`, but `/proc/net/unix` cannot be read. -/
def unreadableEnv : Env :=
  { abEnv with readUnixSocketFile := .error "open /proc/net/unix: permission denied".toList }

/-- As `abEnv`, but the pattern was never set. -/
def noPatternEnv : Env :=
  { abEnv with matchPattern := none }

/-- Collectors at process start. -/
def startCollectors : Collectors :=
  { listeningSocketCount := 0, scrapeCount := 0, scrapeFailedCount := 0, scrapeDurations := [] }

/-- Two lines that normalize to the same address `/x/1/y`, the first with the
sentinel at the head, the second at the tail. -/
def twinBody : Str :=
  "f: 00000002 00000000 00010000 0001 01 1 @/x/1/y\nf: 00000002 00000000 00010000 0001 01 2 /x/1/y@".toList

/-- A pattern for `twinBody`, such as `^(?P<head>@?)/x/1/y@?$`, on its two
addresses: the group `head` matches `@` in the first and the empty string in
the second. -/
def twinPattern : Regexp :=
  { FindStringSubmatch := fun s =>
      if s = "@/x/1/y".toList then [s, "@".toList]
      else if s = "/x/1/y@".toList then [s, []]
      else []
    SubexpNames := [[], "head".toList] }

/-- A line of `/proc/net/unix` whose inode column is padded with a space:
eight whitespace-separated fields, nine pieces between single spaces. -/
def paddedLine : Str :=
  "ffffa0b1997e8800: 00000002 00000000 00010000 0001 01  9999 @g@".toList

/-- A line whose address `@a@b@` has the sentinel also inside. -/
def insideLine : Str :=
  "ffffa0b1997e8800: 00000002 00000000 00010000 0001 01 25034882 @a@b@".toList

/-- A line whose address `@ab@` has the sentinel at the head and the tail only. -/
def endsLine : Str :=
  "ffffa0b19aa77800: 00000002 00000000 00010000 0001 01 25034883 @ab@".toList

/-- A pattern such as `^@(?P<n>.*)@$`, on the addresses `@a@b@` and `@ab@`. -/
def betweenPattern : Regexp :=
  { FindStringSubmatch := fun s =>
      if s = "@a@b@".toList then [s, "a@b".toList]
      else if s = "@ab@".toList then [s, "ab".toList]
      else []
    SubexpNames := [[], "n".toList] }

/-! # Properties -/

/-! ## `gzipAccepted` -/

theorem gzipLoop_iff (parts : List Str) :
    gzipLoop parts = true ↔
      ∃ part ∈ parts, TrimSpace part = "gzip".toList ∨ "gzip;".toList <+: TrimSpace part := by
  induction parts with
  | nil => simp [gzipLoop]
  | cons part parts ih =>
    simp [gzipLoop, HasPrefix, ih]

/-- C7: `gzipAccepted` is true exactly when some comma-separated part of the
`Accept-Encoding` value is, once trimmed of surrounding white space, the token
`gzip` or begins with `gzip;`.  The comparison is case-sensitive: `GZIP`,
`x-gzip`, `gzip ;q=1` and an absent header give false, `deflate, gzip;q=0.5`
gives true. -/
theorem gzipAccepted_iff_part :
    (∀ header : Header,
      gzipAccepted header = true ↔
        ∃ part ∈ Split (headerGet header acceptEncodingHeader) ',',
          TrimSpace part = "gzip".toList ∨ "gzip;".toList <+: TrimSpace part) ∧
    gzipAccepted (acceptEncoding "GZIP".toList) = false ∧
    gzipAccepted (acceptEncoding "x-gzip".toList) = false ∧
    gzipAccepted (acceptEncoding "gzip ;q=1".toList) = false ∧
    gzipAccepted [] = false ∧
    gzipAccepted (acceptEncoding "deflate, gzip;q=0.5".toList) = true := by
  refine ⟨fun header => ?_, by decide, by decide, by decide, by decide, by decide⟩
  simp only [gzipAccepted]
  exact gzipLoop_iff _

/-! ## Go maps -/

theorem lookup_mapStore_self {V : Type} (m : GoMap V) (k : Str) (v : V) :
    List.lookup k (mapStore m k v) = some v := by
  induction m with
  | nil => simp [mapStore, List.lookup]
  | cons kv rest ih =>
    obtain ⟨k0, v0⟩ := kv
    by_cases h : k0 = k
    · simp [mapStore, h, List.lookup]
    · have h2 : (k == k0) = false := by simpa using fun e => h e.symm
      simp [mapStore, h, List.lookup, h2, ih]

theorem lookup_mapStore_ne {V : Type} (m : GoMap V) (k x : Str) (v : V) (hx : x ≠ k) :
    List.lookup x (mapStore m k v) = List.lookup x m := by
  induction m with
  | nil =>
    have h2 : (x == k) = false := by simpa using hx
    simp [mapStore, List.lookup, h2]
  | cons kv rest ih =>
    obtain ⟨k0, v0⟩ := kv
    by_cases h : k0 = k
    · subst h
      have h2 : (x == k0) = false := by simpa using hx
      simp [mapStore, List.lookup, h2]
    · simp only [mapStore, h, if_false, List.lookup, ih]

/-! ## The merge loop -/

theorem lookup_mergeFamily_ne (m : GoMap MetricFamily) (f : MetricFamily) (X : Str)
    (h : f.Name ≠ X) : List.lookup X (mergeFamily m f) = List.lookup X m := by
  simp only [mergeFamily]
  split <;> exact lookup_mapStore_ne _ _ _ _ (Ne.symm h)

theorem lookup_foldl_mergeFamily_some (X : Str) (fs : List MetricFamily) :
    ∀ (m : GoMap MetricFamily) (g : MetricFamily), List.lookup X m = some g →
      List.lookup X (fs.foldl mergeFamily m) =
        some { g with Metric := g.Metric ++ (familiesNamed X fs).flatMap (fun f => f.Metric) } := by
  induction fs with
  | nil => intro m g hg; simpa [familiesNamed] using hg
  | cons f fs ih =>
    intro m g hg
    rw [List.foldl_cons]
    by_cases h : f.Name = X
    · have step : List.lookup X (mergeFamily m f) =
          some { g with Metric := g.Metric ++ f.Metric } := by
        unfold mergeFamily
        simp only [h, hg]
        exact lookup_mapStore_self _ _ _
      rw [ih _ _ step]
      simp [familiesNamed, h, List.flatMap_cons, List.append_assoc]
    · rw [ih _ g (by rw [lookup_mergeFamily_ne m f X h]; exact hg)]
      simp [familiesNamed, h]

theorem lookup_foldl_mergeFamily_none (X : Str) (fs : List MetricFamily) :
    ∀ (m : GoMap MetricFamily), List.lookup X m = none →
      List.lookup X (fs.foldl mergeFamily m) =
        match familiesNamed X fs with
        | [] => none
        | first :: rest =>
          some { first with Metric := first.Metric ++ rest.flatMap (fun f => f.Metric) } := by
  induction fs with
  | nil =>
    intro m hm
    simp only [List.foldl_nil, familiesNamed, List.filter_nil]
    exact hm
  | cons f fs ih =>
    intro m hm
    rw [List.foldl_cons]
    by_cases h : f.Name = X
    · have step : List.lookup X (mergeFamily m f) = some f := by
        unfold mergeFamily
        simp only [h, hm]
        exact lookup_mapStore_self _ _ _
      rw [lookup_foldl_mergeFamily_some X fs _ _ step]
      simp [familiesNamed, h]
    · rw [ih _ (by rw [lookup_mergeFamily_ne m f X h]; exact hm)]
      simp [familiesNamed, h]

theorem mergeLoop_eq_foldl (L : List (List MetricFamily)) :
    mergeLoop L = L.flatten.foldl mergeFamily [] := by
  simp [mergeLoop, List.foldl_flatten]

theorem lookup_mergeLoop (X : Str) (L : List (List MetricFamily)) :
    List.lookup X (mergeLoop L) =
      match familiesNamed X L.flatten with
      | [] => none
      | first :: rest =>
        some { first with Metric := first.Metric ++ rest.flatMap (fun f => f.Metric) } := by
  rw [mergeLoop_eq_foldl]
  exact lookup_foldl_mergeFamily_none X _ [] rfl

theorem familiesNamed_append (X : Str) (xs ys : List MetricFamily) :
    familiesNamed X (xs ++ ys) = familiesNamed X xs ++ familiesNamed X ys := by
  simp [familiesNamed]

theorem samples_flatten (X : Str) (L : List (List MetricFamily)) :
    (familiesNamed X L.flatten).flatMap (fun f => f.Metric) =
      (L.map (samplesNamed X)).flatten := by
  induction L with
  | nil => simp [familiesNamed]
  | cons r L ih =>
    simp only [List.flatten_cons, familiesNamed_append, List.flatMap_append, ih, List.map_cons]
    rfl

theorem length_samplesNamed (X : Str) (r : List MetricFamily) :
    (samplesNamed X r).length = ((familiesNamed X r).map (fun f => f.Metric.length)).sum := by
  unfold samplesNamed
  induction familiesNamed X r with
  | nil => simp
  | cons f fs ih => simp [List.flatMap_cons, ih]

theorem mem_familiesNamed (X : Str) (fs : List MetricFamily) (f : MetricFamily) :
    f ∈ familiesNamed X fs ↔ f ∈ fs ∧ f.Name = X := by
  simp [familiesNamed]

/-- C4: merge completeness.  For the results `L` in merge order and a name
`X`: the merged map has an entry for `X` exactly when some result has a family
of that name; the entry holds as many samples as all families named `X` of all
results together, namely the contributions of the results one after the other,
so each contribution appears in it in its original order. -/
theorem mergeLoop_complete (L : List (List MetricFamily)) (X : Str) :
    ((List.lookup X (mergeLoop L)).isSome = true ↔ ∃ r ∈ L, ∃ f ∈ r, f.Name = X) ∧
    ∀ merged, List.lookup X (mergeLoop L) = some merged →
      merged.Metric.length =
          (L.map (fun r => ((familiesNamed X r).map (fun f => f.Metric.length)).sum)).sum ∧
        merged.Metric = (L.map (samplesNamed X)).flatten ∧
        ∀ r ∈ L, (samplesNamed X r).Sublist merged.Metric := by
  have key := lookup_mergeLoop X L
  have hsam := samples_flatten X L
  constructor
  · rw [key]
    cases hf : familiesNamed X L.flatten with
    | nil =>
      simp only [Option.isSome_none, Bool.false_eq_true, false_iff]
      rintro ⟨r, hr, f, hfr, hX⟩
      have : f ∈ familiesNamed X L.flatten :=
        (mem_familiesNamed X _ f).2 ⟨List.mem_flatten.2 ⟨r, hr, hfr⟩, hX⟩
      rw [hf] at this
      exact List.not_mem_nil _ this
    | cons first rest =>
      simp only [Option.isSome_some, true_iff]
      have : first ∈ familiesNamed X L.flatten := by rw [hf]; exact List.mem_cons_self _ _
      obtain ⟨hmem, hX⟩ := (mem_familiesNamed X _ first).1 this
      obtain ⟨r, hr, hfr⟩ := List.mem_flatten.1 hmem
      exact ⟨r, hr, first, hfr, hX⟩
  · intro merged hm
    rw [key] at hm
    have hmetric : merged.Metric = (L.map (samplesNamed X)).flatten := by
      cases hf : familiesNamed X L.flatten with
      | nil => rw [hf] at hm; cases hm
      | cons first rest =>
        rw [hf] at hm
        rw [hf, List.flatMap_cons] at hsam
        cases hm
        exact hsam
    refine ⟨?_, hmetric, ?_⟩
    · rw [hmetric, List.length_flatten, List.map_map]
      congr 1
      apply List.map_congr_left
      intro r _
      exact length_samplesNamed X r
    · intro r hr
      rw [hmetric]
      exact List.sublist_flatten_of_mem (List.mem_map_of_mem _ hr)

/-- Witness of C4 on `exResults` and the name `a`: the merged family holds the
four samples of the three families named `a`. -/
theorem mergeLoop_complete_witness :
    List.lookup "a".toList (mergeLoop exResults) =
        some (exFamily "a".toList MetricType.GAUGE [1, 2, 4, 7]) ∧
      (exFamily "a".toList MetricType.GAUGE [1, 2, 4, 7]).Metric.length =
        (exResults.map (fun r =>
          ((familiesNamed "a".toList r).map (fun f => f.Metric.length)).sum)).sum :=
  ⟨by decide, ((mergeLoop_complete exResults "a".toList).2 _ (by decide)).1⟩

/-- C10: first-seen schema wins.  When `first` is the first family named `X`
in merge order and `rest` are the later ones, the merged family `X` is `first`
with its name, help and declared kind unchanged, whatever `rest` declares, and
with the samples of `rest` appended to its own in merge order. -/
theorem mergeLoop_first_schema (L : List (List MetricFamily)) (X : Str)
    (first : MetricFamily) (rest : List MetricFamily)
    (h : familiesNamed X L.flatten = first :: rest) :
    List.lookup X (mergeLoop L) =
      some { Name := first.Name, Help := first.Help, Type_ := first.Type_,
             Metric := first.Metric ++ rest.flatMap (fun f => f.Metric) } := by
  rw [lookup_mergeLoop, h]

/-- Witness of C10 on `exResults`: the family `a` is first declared a gauge,
then a counter; the merged family is a gauge and holds all the samples. -/
theorem mergeLoop_first_schema_witness :
    List.lookup "a".toList (mergeLoop exResults) =
      some { Name := "a".toList, Help := [], Type_ := MetricType.GAUGE,
             Metric := (exFamily "a".toList MetricType.GAUGE [1, 2]).Metric ++
               [exFamily "a".toList MetricType.COUNTER [4],
                exFamily "a".toList MetricType.GAUGE [7]].flatMap (fun f => f.Metric) } :=
  mergeLoop_first_schema exResults "a".toList (exFamily "a".toList MetricType.GAUGE [1, 2])
    [exFamily "a".toList MetricType.COUNTER [4], exFamily "a".toList MetricType.GAUGE [7]]
    (by decide)

/-! ## Tag injection -/

theorem appendLabels_eq (visited : GoMap Str) :
    ∀ label : List LabelPair, appendLabels label visited = label ++ visited.map tagLabel := by
  induction visited with
  | nil => intro label; simp [appendLabels]
  | cons kv rest ih =>
    intro label
    have h := ih (label ++ [tagLabel kv])
    simp only [appendLabels, List.foldl_cons] at h ⊢
    rw [tagLabel] at h
    rw [h]
    simp [tagLabel]

theorem injectLoop_spec (ord : RangeOrder) (tags : GoMap Str) (i : Nat) (ms : List Metric) :
    ∀ j, List.Forall₂ (InjectedMetric tags) ms (injectLoop ord tags i j ms) := by
  induction ms with
  | nil => intro j; exact List.Forall₂.nil
  | cons metric rest ih =>
    intro j
    refine List.Forall₂.cons ⟨rfl, ?_, (ord.order i j tags).map tagLabel,
      (ord.perm i j tags).map tagLabel, appendLabels_eq _ _⟩ (ih (j + 1))
    simp only [appendLabels_eq, List.length_append, List.length_map]
    rw [(ord.perm i j tags).length_eq]

theorem injectedFrom_spec (ord : RangeOrder) (tags : GoMap Str) (fams : List MetricFamily) :
    ∀ i, List.Forall₂ (InjectedFamily tags) fams (injectedFrom ord tags i fams) := by
  induction fams with
  | nil => intro i; exact List.Forall₂.nil
  | cons mf rest ih =>
    intro i
    exact List.Forall₂.cons ⟨rfl, rfl, rfl, injectLoop_spec ord tags i mf.Metric 0⟩ (ih (i + 1))

theorem decodeLoop_eq (ord : RangeOrder) (tags : GoMap Str) (last : Option GoError)
    (yields : List MetricFamily) :
    ∀ (i : Nat) (list : List MetricFamily),
      decodeLoop ord tags last i yields list =
        match last with
        | none => .ok (list ++ injectedFrom ord tags i yields)
        | some err => .error err := by
  induction yields with
  | nil => intro i list; cases last <;> simp [decodeLoop, injectedFrom]
  | cons mf rest ih =>
    intro i list
    rw [decodeLoop, ih]
    cases last <;> simp [injectedFrom]

theorem insertByName_perm (mf : MetricFamily) (l : List MetricFamily) :
    (insertByName mf l).Perm (mf :: l) := by
  induction l with
  | nil => exact List.Perm.refl _
  | cons g rest ih =>
    simp only [insertByName]
    split
    · exact List.Perm.refl _
    · exact ((List.Perm.cons g ih).trans (List.Perm.swap mf g rest))

theorem sortByName_perm (l : List MetricFamily) : (sortByName l).Perm l := by
  have h : ∀ (l acc : List MetricFamily),
      (l.foldl (fun sorted mf => insertByName mf sorted) acc).Perm (acc ++ l) := by
    intro l
    induction l with
    | nil => intro acc; simp
    | cons mf rest ih =>
      intro acc
      rw [List.foldl_cons]
      refine (ih _).trans ?_
      refine ((insertByName_perm mf acc).append_right rest).trans ?_
      simpa using (@List.perm_middle _ mf acc rest).symm
  simpa [sortByName] using h l []

/-- C8: tag injection is total and only appends.  Whenever the decoder yields
the families `fams` and ends with `io.EOF`, `parsePrometheusMetrics` succeeds,
and its result is a rearrangement (the sort by name) of families `injected`
that correspond one to one, in order, to `fams`: same name, help and kind, the
same samples in the same order, each sample keeping its data and its label
list, unchanged, followed by exactly one label per pair of `tags`; the label
count grows by the number of tags, and nothing is removed when a tag key is
already a label name. -/
theorem parsePrometheusMetrics_injects (dec : Decoder) (ord : RangeOrder) (tags : GoMap Str)
    (body : Bytes) (fams : List MetricFamily) (h : dec.decode body = (fams, none)) :
    ∃ injected : List MetricFamily,
      parsePrometheusMetrics dec ord tags body = .ok (sortByName injected) ∧
      (sortByName injected).Perm injected ∧
      List.Forall₂ (InjectedFamily tags) fams injected := by
  refine ⟨injectedFrom ord tags 0 fams, ?_, sortByName_perm _, injectedFrom_spec ord tags fams 0⟩
  simp [parsePrometheusMetrics, h, decodeLoop_eq]

/-- Witness of C8: `exDecoded` has a sample labelled `sandbox`, the tags have
the key `sandbox` too; after injection the sample has both labels. -/
theorem parsePrometheusMetrics_injects_witness :
    (∃ injected : List MetricFamily,
      parsePrometheusMetrics exDecoder reverseOrder exTags [] = .ok (sortByName injected) ∧
      (sortByName injected).Perm injected ∧
      List.Forall₂ (InjectedFamily exTags) exDecoded injected) ∧
    parsePrometheusMetrics exDecoder reverseOrder exTags [] =
      .ok [{ Name := "up".toList, Help := [], Type_ := MetricType.GAUGE,
             Metric := [{ Label := [{ Name := "sandbox".toList, Value := "x".toList },
                                    { Name := "pod".toList, Value := "p1".toList },
                                    { Name := "sandbox".toList, Value := "abc".toList }],
                          Data := 1 }] }] :=
  ⟨parsePrometheusMetrics_injects exDecoder reverseOrder exTags [] exDecoded rfl, rfl⟩

/-! ## Splitting and joining -/

theorem Split_ne_nil (s : Str) (sep : Char) : Split s sep ≠ [] := by
  cases s with
  | nil => simp [Split]
  | cons c cs =>
    simp only [Split]
    split
    · simp
    · split <;> simp

theorem Split_no_sep (sep : Char) (s : Str) : ∀ p ∈ Split s sep, sep ∉ p := by
  induction s with
  | nil => simp [Split]
  | cons c cs ih =>
    simp only [Split]
    split
    · intro p hp
      rcases List.mem_cons.1 hp with h | h
      · simp [h]
      · exact ih p h
    · rename_i hc
      split
      · rename_i h0
        exact absurd h0 (Split_ne_nil cs sep)
      · rename_i p0 ps h0
        rw [h0] at ih
        intro p hp
        rcases List.mem_cons.1 hp with h | h
        · subst h
          have := ih p0 (List.mem_cons_self _ _)
          simp only [List.mem_cons, not_or]
          exact ⟨fun e => hc e.symm, this⟩
        · exact ih p (List.mem_cons_of_mem _ h)

theorem Split_of_not_mem (sep : Char) (a : Str) (h : sep ∉ a) : Split a sep = [a] := by
  induction a with
  | nil => rfl
  | cons c cs ih =>
    simp only [List.mem_cons, not_or] at h
    have hc : ¬ c = sep := fun e => h.1 e.symm
    simp [Split, hc, ih h.2]

theorem Split_append_sep (sep : Char) (a s : Str) (h : sep ∉ a) :
    Split (a ++ sep :: s) sep = a :: Split s sep := by
  induction a with
  | nil => simp [Split]
  | cons c cs ih =>
    simp only [List.mem_cons, not_or] at h
    have hc : ¬ c = sep := fun e => h.1 e.symm
    simp [Split, hc, ih h.2]

theorem joinLines_Split (sep : Char) (s : Str) : joinLines (Split s sep) sep = s := by
  induction s with
  | nil => rfl
  | cons c cs ih =>
    simp only [Split]
    split
    · rename_i hc
      cases hs : Split cs sep with
      | nil => exact absurd hs (Split_ne_nil cs sep)
      | cons p ps =>
        rw [hs] at ih
        simp [joinLines, ih, hc]
    · split
      · rename_i h0
        exact absurd h0 (Split_ne_nil cs sep)
      · rename_i p0 ps h0
        rw [h0] at ih
        cases ps with
        | nil => simpa [joinLines] using ih
        | cons q qs =>
          simp only [joinLines] at ih ⊢
          simp [ih]

theorem Split_joinLines (sep : Char) (ls : List Str) (hne : ls ≠ [])
    (h : ∀ l ∈ ls, sep ∉ l) : Split (joinLines ls sep) sep = ls := by
  induction ls with
  | nil => exact absurd rfl hne
  | cons l rest ih =>
    cases rest with
    | nil => exact Split_of_not_mem sep l (h l (List.mem_cons_self _ _))
    | cons l2 rest2 =>
      simp only [joinLines]
      rw [Split_append_sep sep l _ (h l (List.mem_cons_self _ _))]
      rw [ih (by simp) (fun x hx => h x (List.mem_cons_of_mem _ hx))]

/-! ## More on Go maps -/

theorem lookup_eq_none_iff_keys {V : Type} (m : GoMap V) (k : Str) :
    List.lookup k m = none ↔ k ∉ mapKeys m := by
  induction m with
  | nil => simp [mapKeys]
  | cons kv rest ih =>
    obtain ⟨k0, v0⟩ := kv
    by_cases h : k = k0
    · subst h
      have hb : (k == k) = true := beq_self_eq_true k
      simp only [List.lookup, hb, mapKeys, List.map_cons, List.mem_cons, true_or,
        not_true_eq_false, iff_false]
      exact fun e => Option.noConfusion e
    · have h2 : (k == k0) = false := by simpa using h
      simp only [List.lookup, h2, ih, mapKeys, List.map_cons, List.mem_cons, not_or]
      exact ⟨fun hr => ⟨h, hr⟩, fun hr => hr.2⟩

theorem mapFound_iff {V : Type} (m : GoMap V) (k : Str) :
    mapFound m k = true ↔ k ∈ mapKeys m := by
  rw [mapFound, ← not_iff_not, ← lookup_eq_none_iff_keys]
  cases List.lookup k m <;> simp

theorem mapStore_of_not_mem {V : Type} (m : GoMap V) (k : Str) (v : V)
    (h : k ∉ mapKeys m) : mapStore m k v = m ++ [(k, v)] := by
  induction m with
  | nil => rfl
  | cons kv rest ih =>
    obtain ⟨k0, v0⟩ := kv
    simp only [mapKeys, List.map_cons, List.mem_cons, not_or] at h
    have h0 : ¬ k0 = k := fun e => h.1 e.symm
    simp only [mapStore, h0, if_false, List.cons_append]
    rw [ih h.2]

theorem mapKeys_mapStore {V : Type} (m : GoMap V) (k : Str) (v : V) :
    mapKeys (mapStore m k v) = if k ∈ mapKeys m then mapKeys m else mapKeys m ++ [k] := by
  induction m with
  | nil => simp [mapStore, mapKeys]
  | cons kv rest ih =>
    obtain ⟨k0, v0⟩ := kv
    by_cases h : k0 = k
    · subst h
      rw [mapStore, if_pos rfl]
      simp only [mapKeys, List.map_cons, List.mem_cons, true_or, if_true]
    · have h2 : ¬ k = k0 := fun e => h e.symm
      simp only [mapStore, h, if_false]
      simp only [mapKeys, List.map_cons, List.mem_cons, h2, false_or] at ih ⊢
      rw [ih]
      split <;> simp

theorem mem_mapKeys_mapStore {V : Type} (m : GoMap V) (k x : Str) (v : V) :
    x ∈ mapKeys (mapStore m k v) ↔ x = k ∨ x ∈ mapKeys m := by
  rw [mapKeys_mapStore]
  split
  · rename_i h
    constructor
    · exact fun hx => Or.inr hx
    · rintro (hx | hx)
      · rw [hx]; exact h
      · exact hx
  · simp only [List.mem_append, List.mem_singleton]
    exact Or.comm

theorem nodup_mapKeys_mapStore {V : Type} (m : GoMap V) (k : Str) (v : V)
    (h : (mapKeys m).Nodup) : (mapKeys (mapStore m k v)).Nodup := by
  rw [mapKeys_mapStore]
  split
  · exact h
  · rename_i hk
    rw [List.nodup_append]
    refine ⟨h, List.nodup_singleton k, ?_⟩
    intro a ha hb
    rw [List.mem_singleton] at hb
    exact hk (hb ▸ ha)

/-! ## One line of the snapshot -/

theorem parseLine_unfold (re : Regexp) (m : GoMap socketAddr) (line : Str) :
    parseLine re m line =
      if (Split line ' ').length ≠ 8 then m
      else if (re.FindStringSubmatch (eighthPiece line)).length = 0 then m
      else if mapFound m (storedKey line) = true then m
      else mapStore m (storedKey line) (entryOf re line).2 :=
  rfl

theorem parseLine_eq (re : Regexp) (m : GoMap socketAddr) (line : Str) :
    parseLine re m line =
      if passesGuards re line ∧ storedKey line ∉ mapKeys m then m ++ [entryOf re line]
      else m := by
  rw [parseLine_unfold]
  by_cases hq : passesGuards re line ∧ storedKey line ∉ mapKeys m
  · rw [if_pos hq, if_neg (not_not.2 hq.1.1),
      if_neg (fun h => hq.1.2 (List.length_eq_zero.1 h)),
      if_neg (fun h => hq.2 ((mapFound_iff _ _).1 h)), mapStore_of_not_mem _ _ _ hq.2]
    rfl
  · rw [if_neg hq]
    by_cases h1 : (Split line ' ').length ≠ 8
    · rw [if_pos h1]
    · rw [if_neg h1]
      by_cases h2 : (re.FindStringSubmatch (eighthPiece line)).length = 0
      · rw [if_pos h2]
      · rw [if_neg h2]
        by_cases h3 : mapFound m (storedKey line) = true
        · rw [if_pos h3]
        · exfalso
          exact hq ⟨⟨not_not.1 h1, fun e => h2 (by rw [e]; rfl)⟩,
            fun hmem => h3 ((mapFound_iff _ _).2 hmem)⟩

theorem parseLine_of_not_passesGuards (re : Regexp) (m : GoMap socketAddr) (line : Str)
    (h : ¬ passesGuards re line) : parseLine re m line = m := by
  rw [parseLine_eq]
  simp [h]

/-! ## The discovery loop -/

theorem parseLine_keys (re : Regexp) (m : GoMap socketAddr) (line k : Str) :
    k ∈ mapKeys (parseLine re m line) ↔
      k ∈ mapKeys m ∨ (passesGuards re line ∧ storedKey line = k) := by
  rw [parseLine_eq]
  by_cases hq : passesGuards re line
  · by_cases hf : storedKey line ∈ mapKeys m
    · rw [if_neg (fun h => h.2 hf)]
      constructor
      · exact fun h => Or.inl h
      · rintro (h | ⟨_, h⟩)
        · exact h
        · rw [← h]; exact hf
    · rw [if_pos ⟨hq, hf⟩]
      simp only [mapKeys, List.map_append, List.map_cons, List.map_nil, List.mem_append,
        List.mem_singleton, entryOf]
      constructor
      · rintro (h | h)
        · exact Or.inl h
        · exact Or.inr ⟨hq, h.symm⟩
      · rintro (h | ⟨_, h⟩)
        · exact Or.inl h
        · exact Or.inr h.symm
  · rw [if_neg (fun h => hq h.1)]
    constructor
    · exact fun h => Or.inl h
    · rintro (h | ⟨h, _⟩)
      · exact h
      · exact absurd h hq

set_option maxRecDepth 100000 in
theorem dataLines_split : Split data '\n' = dataLines := by
  decide

theorem not_passesGuards_of_length (re : Regexp) (line : Str)
    (h : (Split line ' ').length ≠ 8) : ¬ passesGuards re line :=
  fun hq => h hq.1

theorem not_passesGuards_of_nomatch (re : Regexp) (line : Str)
    (h : re.FindStringSubmatch (eighthPiece line) = []) : ¬ passesGuards re line :=
  fun hq => hq.2 h

/-- The test `TestParseSocketAddrs`: for a pattern with the one named group
`sandbox` that matches the `shim-monitor.sock` address with the id and does not
match the `shim.sock` address, the program returns the single entry the test
expects. -/
theorem parseSocketAddrs_data (re : Regexp)
    (hnames : re.SubexpNames = [[], "sandbox".toList])
    (hshim : re.FindStringSubmatch shimAddr = [])
    (hmon : re.FindStringSubmatch monitorAddr = [monitorAddr, sandboxId]) :
    parseSocketAddrs (some re) data =
      .ok [(monitorKey, { addr := monitorKey, tags := [("sandbox".toList, sandboxId)] })] := by
  have a2 : eighthPiece
      ("ffffa0b075262000: 00000002 00000000 00010000 0001 01 25032547 ".toList ++ shimAddr) =
      shimAddr := by decide
  have a3 : eighthPiece
      ("ffffa0b1997e8800: 00000002 00000000 00010000 0001 01 25034882 ".toList ++ monitorAddr) =
      monitorAddr := by decide
  have a4 : eighthPiece
      ("ffffa0b19aa77800: 00000003 00000000 00000000 0001 03 25034159 ".toList ++ shimAddr) =
      shimAddr := by decide
  have a5 : eighthPiece
      ("ffffa0b17ab70000: 00000003 00000000 00000000 0001 03 25034860 ".toList ++ shimAddr) =
      shimAddr := by decide
  have l3 : (Split
      ("ffffa0b1997e8800: 00000002 00000000 00010000 0001 01 25034882 ".toList ++ monitorAddr)
      ' ').length = 8 := by decide
  have hkey : ReplaceAll monitorAddr '@' [] = monitorKey := by decide
  have q3 : passesGuards re
      ("ffffa0b1997e8800: 00000002 00000000 00010000 0001 01 25034882 ".toList ++ monitorAddr) ∧
      storedKey
        ("ffffa0b1997e8800: 00000002 00000000 00010000 0001 01 25034882 ".toList ++ monitorAddr) ∉
        mapKeys ([] : GoMap socketAddr) := by
    refine ⟨⟨l3, ?_⟩, by simp [mapKeys]⟩
    rw [a3, hmon]
    exact List.cons_ne_nil _ _
  have e3 : entryOf re
      ("ffffa0b1997e8800: 00000002 00000000 00010000 0001 01 25034882 ".toList ++ monitorAddr) =
      (monitorKey, { addr := monitorKey, tags := [("sandbox".toList, sandboxId)] }) := by
    simp only [entryOf, storedKey, a3, hmon, hnames, hkey]
    rfl
  have s0 : parseLine re [] [] = [] :=
    parseLine_of_not_passesGuards re _ _ (not_passesGuards_of_length re _ (by decide))
  have s1 : parseLine re [] "cat /proc/net/unix | grep shim".toList = [] :=
    parseLine_of_not_passesGuards re _ _ (not_passesGuards_of_length re _ (by decide))
  have s2 : parseLine re []
      ("ffffa0b075262000: 00000002 00000000 00010000 0001 01 25032547 ".toList ++ shimAddr) =
      [] :=
    parseLine_of_not_passesGuards re _ _ (not_passesGuards_of_nomatch re _ (by rw [a2]; exact hshim))
  have s3 : parseLine re []
      ("ffffa0b1997e8800: 00000002 00000000 00010000 0001 01 25034882 ".toList ++ monitorAddr) =
      [(monitorKey, { addr := monitorKey, tags := [("sandbox".toList, sandboxId)] })] := by
    rw [parseLine_eq re [] _, if_pos q3, e3]
    rfl
  have s4 : ∀ m, parseLine re m
      ("ffffa0b19aa77800: 00000003 00000000 00000000 0001 03 25034159 ".toList ++ shimAddr) =
      m := fun m =>
    parseLine_of_not_passesGuards re _ _ (not_passesGuards_of_nomatch re _ (by rw [a4]; exact hshim))
  have s5 : ∀ m, parseLine re m
      ("ffffa0b17ab70000: 00000003 00000000 00000000 0001 03 25034860 ".toList ++ shimAddr) =
      m := fun m =>
    parseLine_of_not_passesGuards re _ _ (not_passesGuards_of_nomatch re _ (by rw [a5]; exact hshim))
  have s6 : ∀ m, parseLine re m [] = m := fun m =>
    parseLine_of_not_passesGuards re _ _ (not_passesGuards_of_length re _ (by decide))
  simp only [parseSocketAddrs, dataLines_split, dataLines, List.foldl_cons, List.foldl_nil]
  rw [s0, s1, s2, s3, s4, s5, s6]

/-! ## Lines with a run of white space -/

/-- C2, the code at the failing input: `runLine` has seven whitespace-separated
fields, not eight, so it lacks the required field count; yet the program makes
an Endpoint of it, and its result differs from the one on the text with the
line deleted (the empty text). -/
theorem whitespace_run_contributes :
    (whitespaceFields runLine).length = 7 ∧
    parseSocketAddrs (some gPattern) runLine =
      .ok [("g".toList, { addr := "g".toList, tags := [] })] ∧
    joinLines ((Split runLine '\n').eraseIdx 0) '\n' = [] ∧
    parseSocketAddrs (some gPattern) [] = .ok [] ∧
    parseSocketAddrs (some gPattern) runLine ≠
      parseSocketAddrs (some gPattern) (joinLines ((Split runLine '\n').eraseIdx 0) '\n') := by
  have h1 : parseSocketAddrs (some gPattern) runLine =
      .ok [("g".toList, { addr := "g".toList, tags := [] })] := by rfl
  have h2 : joinLines ((Split runLine '\n').eraseIdx 0) '\n' = [] := by decide
  have h3 : parseSocketAddrs (some gPattern) [] = .ok [] := by rfl
  refine ⟨by decide, h1, h2, h3, ?_⟩
  rw [h2, h1, h3]
  intro h
  cases h

/-- C9, the code at the failing input: the address `@/run/a@b.sock@` gets the
identity `/run/ab.sock`, the interior `@` is removed too, while removing `@` at
the head and at the tail only gives `/run/a@b.sock`. -/
theorem interior_sentinel_removed :
    parseSocketAddrs (some atPattern) atLine =
      .ok [("/run/ab.sock".toList, { addr := "/run/ab.sock".toList, tags := [] })] ∧
    eighthPiece atLine = "@/run/a@b.sock@".toList ∧
    trimSentinel (eighthPiece atLine) = "/run/a@b.sock".toList ∧
    storedKey atLine ≠ trimSentinel (eighthPiece atLine) := by
  refine ⟨by rfl, by decide, by decide, by decide⟩

/-! ## Tags of an Endpoint -/

theorem tagsLoop_lookup_skip (m : List Str) (names : List Str) :
    ∀ (i : Nat) (tags : GoMap Str) (n : Str), (∀ j : Nat, names[j]? ≠ some n) →
      List.lookup n (tagsLoop m i names tags) = List.lookup n tags := by
  induction names with
  | nil => intro i tags n _; rfl
  | cons x rest ih =>
    intro i tags n h
    have hx : n ≠ x := fun e => h 0 (by simp [e])
    rw [tagsLoop, ih (i + 1) _ n (fun j => by simpa using h (j + 1))]
    split
    · exact lookup_mapStore_ne _ _ _ _ hx
    · rfl

theorem tagsLoop_lookup_last (m : List Str) (names : List Str) :
    ∀ (i : Nat) (tags : GoMap Str) (j : Nat) (n : Str), names[j]? = some n → i + j ≠ 0 →
      n ≠ [] → (∀ j2 : Nat, j < j2 → names[j2]? ≠ some n) →
      List.lookup n (tagsLoop m i names tags) = some (m.getD (i + j) []) := by
  induction names with
  | nil => intro i tags j n h; simp at h
  | cons x rest ih =>
    intro i tags j n h hij hn hlast
    cases j with
    | zero =>
      simp only [List.getElem?_cons_zero, Option.some.injEq] at h
      subst h
      have hi : i ≠ 0 := by simpa using hij
      rw [tagsLoop, tagsLoop_lookup_skip m rest (i + 1) _ x
        (fun j => by simpa using hlast (j + 1) (Nat.succ_pos j))]
      rw [if_pos ⟨hi, hn⟩, lookup_mapStore_self]
      rfl
    | succ j =>
      simp only [List.getElem?_cons_succ] at h
      rw [tagsLoop, ih (i + 1) _ j n h (by omega) hn
        (fun j2 hj2 => by simpa using hlast (j2 + 1) (Nat.succ_lt_succ hj2))]
      have e : i + 1 + j = i + (j + 1) := by omega
      rw [e]

theorem tagsLoop_keys (m : List Str) (names : List Str) :
    ∀ (i : Nat) (tags : GoMap Str) (n : Str),
      n ∈ mapKeys (tagsLoop m i names tags) ↔
        n ∈ mapKeys tags ∨ (n ≠ [] ∧ ∃ j : Nat, i + j ≠ 0 ∧ names[j]? = some n) := by
  induction names with
  | nil => intro i tags n; simp [tagsLoop]
  | cons x rest ih =>
    intro i tags n
    rw [tagsLoop, ih]
    constructor
    · rintro (h | ⟨hn, j, hj, hj2⟩)
      · split at h
        · rename_i hc
          rcases (mem_mapKeys_mapStore _ _ _ _).1 h with h1 | h1
          · refine Or.inr ⟨h1 ▸ hc.2, 0, by simpa using hc.1, by simp [h1]⟩
          · exact Or.inl h1
        · exact Or.inl h
      · exact Or.inr ⟨hn, j + 1, by omega, by simpa using hj2⟩
    · rintro (h | ⟨hn, j, hj, hj2⟩)
      · refine Or.inl ?_
        split
        · exact (mem_mapKeys_mapStore _ _ _ _).2 (Or.inr h)
        · exact h
      · cases j with
        | zero =>
          simp only [List.getElem?_cons_zero, Option.some.injEq] at hj2
          subst hj2
          refine Or.inl ?_
          rw [if_pos ⟨by simpa using hj, hn⟩]
          exact (mem_mapKeys_mapStore _ _ _ _).2 (Or.inl rfl)
        | succ j =>
          exact Or.inr ⟨hn, j, by omega, by simpa using hj2⟩

theorem tagsLoop_nodup (m : List Str) (names : List Str) :
    ∀ (i : Nat) (tags : GoMap Str), (mapKeys tags).Nodup →
      (mapKeys (tagsLoop m i names tags)).Nodup := by
  induction names with
  | nil => intro i tags h; exact h
  | cons x rest ih =>
    intro i tags h
    rw [tagsLoop]
    apply ih
    split
    · exact nodup_mapKeys_mapStore _ _ _ h
    · exact h

theorem mem_mapKeys_of_mem {V : Type} (m : GoMap V) (k : Str) (v : V) (h : (k, v) ∈ m) :
    k ∈ mapKeys m :=
  List.mem_map.2 ⟨(k, v), h, rfl⟩

theorem foldl_parseLine_first (re : Regexp) (ls : List Str) :
    ∀ (m : GoMap socketAddr) (k : Str) (sa : socketAddr),
      (k, sa) ∈ ls.foldl (parseLine re) m →
      (k, sa) ∈ m ∨
        (k ∉ mapKeys m ∧ ∃ pre line post, ls = pre ++ line :: post ∧ passesGuards re line ∧
          storedKey line = k ∧ (∀ l ∈ pre, passesGuards re l → storedKey l ≠ k) ∧
          sa = (entryOf re line).2) := by
  induction ls with
  | nil => intro m k sa h; exact Or.inl h
  | cons l rest ih =>
    intro m k sa h
    rw [List.foldl_cons] at h
    have hkeys := parseLine_keys re m l
    rcases ih _ k sa h with h1 | ⟨hk, pre, line, post, hls, hq, hn, hpre, hsa⟩
    · rw [parseLine_eq] at h1
      split at h1
      · rename_i hc
        rcases List.mem_append.1 h1 with h2 | h2
        · exact Or.inl h2
        · rw [List.mem_singleton] at h2
          have hk : k = storedKey l := congrArg Prod.fst h2
          have hs : sa = (entryOf re l).2 := congrArg Prod.snd h2
          refine Or.inr ⟨hk ▸ hc.2, [], l, rest, rfl, hc.1, hk.symm, ?_, hs⟩
          intro x hx
          exact absurd hx (List.not_mem_nil _)
      · exact Or.inl h1
    · refine Or.inr ⟨fun hm => hk ((hkeys k).2 (Or.inl hm)), l :: pre, line, post, ?_, hq, hn,
        ?_, hsa⟩
      · rw [hls]; rfl
      · intro x hx hqx
        rcases List.mem_cons.1 hx with hx1 | hx1
        · intro e
          rw [hx1] at hqx e
          exact hk ((hkeys k).2 (Or.inr ⟨hqx, e⟩))
        · exact hpre x hx1 hqx

/-- Counterexample to C3 as stated: the pattern `^(?P<n>a)(?P<n>b)$` has two
named groups; on the address `ab` the first matched `a` and the second `b`, and
the tags map has the single key `n` with the value `b`.  The line is plain and
`ab` is its address field in the sense of the specification too. -/
theorem duplicate_group_name_last_wins :
    parseSocketAddrs (some dupPattern) dupLine =
      .ok [("ab".toList, { addr := "ab".toList, tags := [("n".toList, "b".toList)] })] ∧
    dupPattern.SubexpNames = [[], "n".toList, "n".toList] ∧
    dupPattern.FindStringSubmatch (eighthPiece dupLine) =
      ["ab".toList, "a".toList, "b".toList] ∧
    List.lookup "n".toList [("n".toList, "b".toList)] ≠
      some ((dupPattern.FindStringSubmatch (eighthPiece dupLine)).getD 1 []) ∧
    plainLine dupLine ∧ addressField dupLine = "ab".toList := by
  refine ⟨by rfl, by rfl, by decide, by decide, by decide, by decide⟩

/-! ## The request -/

theorem encodeMetricFamily_ok (env : Env) (h : ∀ n mf, env.encode n mf = none)
    (mfs : List MetricFamily) : ∀ w : Writer, (encodeMetricFamily env mfs w).2 = none := by
  induction mfs with
  | nil => intro w; rfl
  | cons mf rest ih =>
    intro w
    rw [encodeMetricFamily, h]
    exact ih _

theorem encodeMetricFamily_out (env : Env) (mfs : List MetricFamily) :
    ∀ w : Writer, ∃ n, (encodeMetricFamily env mfs w).1.out =
      w.out ++ (mfs.take n).map Chunk.family := by
  induction mfs with
  | nil => intro w; exact ⟨0, by simp [encodeMetricFamily]⟩
  | cons mf rest ih =>
    intro w
    rw [encodeMetricFamily]
    cases env.encode w.calls mf with
    | some err => exact ⟨0, by simp⟩
    | none =>
      obtain ⟨n, hn⟩ := ih { calls := w.calls + 1, out := w.out ++ [Chunk.family mf] }
      exact ⟨n + 1, by simp [hn]⟩

theorem getSocketAddrs_error (env : Env)
    (h : (∃ e, env.readUnixSocketFile = .error e) ∨ env.matchPattern = none) :
    ∃ err, getSocketAddrs env = .error err := by
  unfold getSocketAddrs
  cases hr : env.readUnixSocketFile with
  | error e => exact ⟨e, rfl⟩
  | ok body =>
    rcases h with ⟨e, he⟩ | hp
    · rw [hr] at he; cases he
    · exact ⟨"matchPattern not set".toList, by simp only [parseSocketAddrs, hp]⟩

theorem aggregateSocketMetrics_error (env : Env) (st : State) (err : GoError)
    (h : getSocketAddrs env = .error err) : aggregateSocketMetrics env st = (st, some err) := by
  simp [aggregateSocketMetrics, h]

theorem aggregateSocketMetrics_failedCount (env : Env) (st : State) :
    (aggregateSocketMetrics env st).1.collectors.scrapeFailedCount =
      st.collectors.scrapeFailedCount := by
  unfold aggregateSocketMetrics
  cases getSocketAddrs env with
  | error e => rfl
  | ok socketAddrs =>
    simp only []
    split
    · rfl
    · split <;> rfl

theorem aggregateSocketMetrics_ok (env : Env) (st : State)
    (socketAddrs : GoMap socketAddr) (hd : getSocketAddrs env = .ok socketAddrs)
    (h : ∀ n mf, env.encode n mf = none) : (aggregateSocketMetrics env st).2 = none := by
  unfold aggregateSocketMetrics
  rw [hd]
  simp only []
  split
  · rfl
  · split
    · rfl
    · exact encodeMetricFamily_ok env h _ _

/-- C5, as amended: in a request in which discovery succeeds, the scrape-failure
counter does not count the endpoints whose fetch or decode failed.  It changes
by at most one, and it is unchanged whenever no call of the encoder fails,
however many endpoints failed. -/
theorem scrapeFailedCount_ignores_endpoints (env : Env) (header : Header) (c : Collectors)
    (socketAddrs : GoMap socketAddr) (hd : getSocketAddrs env = .ok socketAddrs) :
    ((processMetricsRequest env header c).collectors.scrapeFailedCount = c.scrapeFailedCount ∨
      (processMetricsRequest env header c).collectors.scrapeFailedCount =
        c.scrapeFailedCount + 1) ∧
    ((∀ n mf, env.encode n mf = none) →
      (processMetricsRequest env header c).collectors.scrapeFailedCount =
        c.scrapeFailedCount) := by
  unfold processMetricsRequest
  simp only []
  cases env.gather { c with scrapeCount := c.scrapeCount + 1 } with
  | error err => exact ⟨Or.inl rfl, fun _ => rfl⟩
  | ok mfs =>
    simp only []
    constructor
    · split
      · right
        simp only [finishRequest]
        rw [aggregateSocketMetrics_failedCount]
      · left
        simp only [finishRequest]
        rw [aggregateSocketMetrics_failedCount]
    · intro h
      have hn := aggregateSocketMetrics_ok env
        { collectors := { c with scrapeCount := c.scrapeCount + 1 },
          writer := (encodeMetricFamily env mfs { calls := 0, out := [] }).1, fetched := [] }
        socketAddrs hd h
      simp only [hn, finishRequest]
      rw [aggregateSocketMetrics_failedCount]

/-- Witness of C5 as amended: in `abEnv` discovery succeeds, one of the two
endpoints fails, no encoder call fails, and the counter is unchanged. -/
theorem scrapeFailedCount_ignores_endpoints_witness :
    failedEndpoints abEnv = 1 ∧
    (processMetricsRequest abEnv [] startCollectors).collectors.scrapeFailedCount =
      startCollectors.scrapeFailedCount :=
  ⟨by decide,
   (scrapeFailedCount_ignores_endpoints abEnv [] startCollectors
      [("A".toList, { addr := "A".toList, tags := [("sandbox".toList, "A".toList)] }),
       ("B".toList, { addr := "B".toList, tags := [("sandbox".toList, "B".toList)] })]
      (by rfl)).2 (fun _ _ => rfl)⟩

/-- Counterexample to C5 as stated: in `abEnv` discovery succeeds with the
endpoints `A` and `B`, the fetch from `A` fails and `B` succeeds, so one
endpoint failed; the scrape-failure counter is 0 before and 0 after the
request, not 1. -/
theorem endpoint_failure_not_counted :
    getSocketAddrs abEnv =
      .ok [("A".toList, { addr := "A".toList, tags := [("sandbox".toList, "A".toList)] }),
           ("B".toList, { addr := "B".toList, tags := [("sandbox".toList, "B".toList)] })] ∧
    failed (getSocketMetrics abEnv "A".toList [("sandbox".toList, "A".toList)]) = true ∧
    failed (getSocketMetrics abEnv "B".toList [("sandbox".toList, "B".toList)]) = false ∧
    failedEndpoints abEnv = 1 ∧
    startCollectors.scrapeFailedCount = 0 ∧
    (processMetricsRequest abEnv [] startCollectors).collectors.scrapeFailedCount = 0 ∧
    (processMetricsRequest abEnv [] startCollectors).collectors.scrapeFailedCount ≠
      startCollectors.scrapeFailedCount + failedEndpoints abEnv := by
  refine ⟨by rfl, by decide, by decide, by decide, by decide, by decide, by decide⟩

theorem bodyChunks_finishRequest (env : Env) (gz : Bool) (header : GoMap Str)
    (status : Option Nat) (st : State) :
    bodyChunks (finishRequest env gz header status [] st).response = st.writer.out := by
  cases gz <;> simp [bodyChunks, finishRequest]

theorem processMetricsRequest_gather_error (env : Env) (header : Header) (c : Collectors)
    (gerr : GoError) (hg : env.gather { c with scrapeCount := c.scrapeCount + 1 } = .error gerr) :
    ∃ h, processMetricsRequest env header c =
      finishRequest env (gzipAccepted header) h (some StatusInternalServerError)
        [Chunk.text gerr]
        { collectors := { c with scrapeCount := c.scrapeCount + 1 },
          writer := { calls := 0, out := [] }, fetched := [] } := by
  unfold processMetricsRequest
  simp only [hg]
  exact ⟨_, rfl⟩

theorem processMetricsRequest_discovery_error (env : Env) (header : Header) (c : Collectors)
    (mfs : List MetricFamily) (err : GoError)
    (hg : env.gather { c with scrapeCount := c.scrapeCount + 1 } = .ok mfs)
    (herr : getSocketAddrs env = .error err) :
    ∃ h, processMetricsRequest env header c =
      finishRequest env (gzipAccepted header) h none []
        { collectors :=
            { c with scrapeCount := c.scrapeCount + 1, scrapeFailedCount := c.scrapeFailedCount + 1 },
          writer := (encodeMetricFamily env mfs { calls := 0, out := [] }).1, fetched := [] } := by
  unfold processMetricsRequest
  simp only [hg, aggregateSocketMetrics_error env _ err herr]
  exact ⟨_, rfl⟩

/-- C6, as amended: when the discovery source cannot be read or the pattern is
not configured, no endpoint is scraped.  If the self metrics were gathered, the
failure is counted once in the scrape-failure counter, `WriteHeader` is never
called (the response keeps the status 200), and everything in the body is an
encoded self-metric family, not the error text.  The internal-error status with
the raw error text as body is what a failure of the self-metric gathering
gives. -/
theorem discovery_failure_response (env : Env) (header : Header) (c : Collectors)
    (hd : (∃ e, env.readUnixSocketFile = .error e) ∨ env.matchPattern = none) :
    (processMetricsRequest env header c).fetched = [] ∧
    (∀ mfs, env.gather { c with scrapeCount := c.scrapeCount + 1 } = .ok mfs →
      (processMetricsRequest env header c).response.status = none ∧
      (processMetricsRequest env header c).collectors.scrapeFailedCount =
        c.scrapeFailedCount + 1 ∧
      ∀ ch ∈ bodyChunks (processMetricsRequest env header c).response,
        ∃ mf ∈ mfs, ch = Chunk.family mf) ∧
    (∀ gerr, env.gather { c with scrapeCount := c.scrapeCount + 1 } = .error gerr →
      (processMetricsRequest env header c).response.status = some StatusInternalServerError ∧
      (processMetricsRequest env header c).response.plain = [Chunk.text gerr]) := by
  obtain ⟨err, herr⟩ := getSocketAddrs_error env hd
  cases hg : env.gather { c with scrapeCount := c.scrapeCount + 1 } with
  | error gerr =>
    obtain ⟨h, hp⟩ := processMetricsRequest_gather_error env header c gerr hg
    rw [hp]
    refine ⟨rfl, fun mfs h => (by cases h), fun g h => ?_⟩
    cases h
    refine ⟨rfl, ?_⟩
    simp only [finishRequest]
    split <;> rfl
  | ok mfs =>
    obtain ⟨h, hp⟩ := processMetricsRequest_discovery_error env header c mfs err hg herr
    rw [hp]
    refine ⟨rfl, fun mfs2 h => ?_, fun g h => (by cases h)⟩
    cases h
    refine ⟨rfl, rfl, ?_⟩
    rw [bodyChunks_finishRequest]
    obtain ⟨n, hn⟩ := encodeMetricFamily_out env mfs { calls := 0, out := [] }
    intro ch hch
    simp only [] at hch
    rw [hn] at hch
    simp only [List.nil_append, List.mem_map] at hch
    obtain ⟨mf, hmf, rfl⟩ := hch
    exact ⟨mf, List.mem_of_mem_take hmf, rfl⟩

/-- Witness of C6 as amended: in `unreadableEnv` the snapshot cannot be read
and the registry yields `selfFamily`. -/
theorem discovery_failure_response_witness :
    (processMetricsRequest unreadableEnv [] startCollectors).response.status = none ∧
    (processMetricsRequest unreadableEnv [] startCollectors).collectors.scrapeFailedCount =
      startCollectors.scrapeFailedCount + 1 ∧
    ∀ ch ∈ bodyChunks (processMetricsRequest unreadableEnv [] startCollectors).response,
      ∃ mf ∈ [selfFamily], ch = Chunk.family mf :=
  (discovery_failure_response unreadableEnv [] startCollectors (Or.inl ⟨_, rfl⟩)).2.1
    [selfFamily] rfl

/-- Counterexample to C6 as stated: in `unreadableEnv` the discovery source
cannot be read, and in `noPatternEnv` the pattern is not configured; in both
the response never gets the internal-error status, and its body is the encoded
self-metric family, without the error text. -/
theorem discovery_failure_keeps_status :
    getSocketAddrs unreadableEnv = .error "open /proc/net/unix: permission denied".toList ∧
    (processMetricsRequest unreadableEnv [] startCollectors).response.status = none ∧
    (processMetricsRequest unreadableEnv [] startCollectors).response.status ≠
      some StatusInternalServerError ∧
    bodyChunks (processMetricsRequest unreadableEnv [] startCollectors).response =
      [Chunk.family selfFamily] ∧
    Chunk.text "open /proc/net/unix: permission denied".toList ∉
      bodyChunks (processMetricsRequest unreadableEnv [] startCollectors).response ∧
    getSocketAddrs noPatternEnv = .error "matchPattern not set".toList ∧
    (processMetricsRequest noPatternEnv [] startCollectors).response.status = none ∧
    bodyChunks (processMetricsRequest noPatternEnv [] startCollectors).response =
      [Chunk.family selfFamily] := by
  refine ⟨by rfl, by decide, by decide, by decide, by decide, by rfl, by decide, by decide⟩

/-! ## Trimming -/

theorem trimRight_spec (p : Char → Bool) (s : Str) :
    ∃ r, s = trimRight p s ++ r ∧ (∀ c ∈ r, p c = true) ∧
      ∀ c, (trimRight p s).getLast? = some c → p c = false := by
  induction s with
  | nil => exact ⟨[], rfl, fun c h => absurd h (List.not_mem_nil _), fun c h => by simp [trimRight] at h⟩
  | cons c cs ih =>
    obtain ⟨r, hr, hall, hlast⟩ := ih
    cases ht : trimRight p cs with
    | nil =>
      rw [ht] at hr
      simp only [trimRight, ht]
      by_cases hp : p c = true
      · refine ⟨c :: r, by simp [hp, hr], ?_, by simp [hp]⟩
        intro x hx
        rcases List.mem_cons.1 hx with h | h
        · rw [h]; exact hp
        · exact hall x h
      · refine ⟨r, by simp [hp, hr], hall, ?_⟩
        intro x hx
        have hpf : p c = false := by simpa using hp
        simp only [hpf, Bool.false_eq_true, if_false, List.getLast?_singleton,
          Option.some.injEq] at hx
        rw [← hx]
        exact hpf
    | cons r0 rs =>
      rw [ht] at hr hlast
      simp only [trimRight, ht]
      refine ⟨r, by simp [hr], hall, ?_⟩
      intro x hx
      rw [List.getLast?_cons_cons] at hx
      exact hlast x hx

/-- The function `TrimSpace` removes white space at both ends and nothing else: the string
is a run of white space, the trimmed string, and a run of white space, and the
trimmed string neither begins nor ends with white space. -/
theorem TrimSpace_spec (s : Str) :
    ∃ l r, s = l ++ TrimSpace s ++ r ∧ (∀ c ∈ l, isSpace c = true) ∧
      (∀ c ∈ r, isSpace c = true) ∧
      (∀ c, (TrimSpace s).head? = some c → isSpace c = false) ∧
      (∀ c, (TrimSpace s).getLast? = some c → isSpace c = false) := by
  obtain ⟨r, hr, hall, hlast⟩ := trimRight_spec isSpace (s.dropWhile isSpace)
  refine ⟨s.takeWhile isSpace, r, ?_, fun c hc => List.mem_takeWhile_imp hc, hall, ?_, hlast⟩
  · rw [List.append_assoc, TrimSpace, ← hr, List.takeWhile_append_dropWhile]
  · intro c hc
    unfold TrimSpace at hc
    cases hd : s.dropWhile isSpace with
    | nil => rw [hd] at hc; simp [trimRight] at hc
    | cons d ds =>
      have hdsp : isSpace d = false := by
        have := List.head_dropWhile_not isSpace s (by rw [hd]; exact List.cons_ne_nil _ _)
        simpa [hd] using this
      rw [hd] at hc
      simp only [trimRight] at hc
      split at hc
      · simp only [hdsp] at hc
        simp only [Bool.false_eq_true, if_false, List.head?_cons, Option.some.injEq] at hc
        rw [← hc]; exact hdsp
      · simp only [List.head?_cons, Option.some.injEq] at hc
        rw [← hc]; exact hdsp

/-! ## Plain lines -/

theorem mem_Split_cover (sep : Char) (s : Str) :
    ∀ c ∈ s, c = sep ∨ ∃ p ∈ Split s sep, c ∈ p := by
  induction s with
  | nil => intro c hc; exact absurd hc (List.not_mem_nil _)
  | cons x xs ih =>
    intro c hc
    simp only [Split]
    by_cases hx : x = sep
    · rw [if_pos hx]
      rcases List.mem_cons.1 hc with h | h
      · exact Or.inl (h.trans hx)
      · rcases ih c h with h1 | ⟨p, hp, hcp⟩
        · exact Or.inl h1
        · exact Or.inr ⟨p, List.mem_cons_of_mem _ hp, hcp⟩
    · rw [if_neg hx]
      cases hs : Split xs sep with
      | nil => exact absurd hs (Split_ne_nil xs sep)
      | cons p0 ps =>
        rw [hs] at ih
        rcases List.mem_cons.1 hc with h | h
        · exact Or.inr ⟨x :: p0, List.mem_cons_self _ _, by rw [h]; exact List.mem_cons_self _ _⟩
        · rcases ih c h with h1 | ⟨p, hp, hcp⟩
          · exact Or.inl h1
          · rcases List.mem_cons.1 hp with h2 | h2
            · exact Or.inr ⟨x :: p0, List.mem_cons_self _ _,
                List.mem_cons_of_mem _ (h2 ▸ hcp)⟩
            · exact Or.inr ⟨p, List.mem_cons_of_mem _ h2, hcp⟩

theorem splitSpace_eq_Split (s : Str) (h : ∀ c ∈ s, isSpace c = true → c = ' ') :
    splitSpace s = Split s ' ' := by
  induction s with
  | nil => rfl
  | cons x xs ih =>
    have ih2 := ih (fun c hc => h c (List.mem_cons_of_mem _ hc))
    by_cases hx : x = ' '
    · subst hx
      have hsp : isSpace ' ' = true := by decide
      simp only [splitSpace, Split, hsp, if_true, ih2]
    · have hsp : isSpace x = false := by
        cases hb : isSpace x with
        | false => rfl
        | true => exact absurd (h x (List.mem_cons_self _ _) hb) hx
      simp only [splitSpace, Split, hsp, hx, if_false, Bool.false_eq_true, ih2]

theorem whitespaceFields_of_singleSpaced (line : Str) (h : singleSpaced line)
    (hne : line ≠ []) : whitespaceFields line = Split line ' ' := by
  rcases h with h | h
  · exact absurd h hne
  · have hchars : ∀ c ∈ line, isSpace c = true → c = ' ' := by
      intro c hc hsp
      rcases mem_Split_cover ' ' line c hc with h1 | ⟨p, hp, hcp⟩
      · exact h1
      · rw [(h p hp).2 c hcp] at hsp
        cases hsp
    rw [whitespaceFields, splitSpace_eq_Split line hchars, List.filter_eq_self]
    intro p hp
    exact decide_eq_true (h p hp).1

theorem eighthPiece_of_singleSpaced (line : Str) (h : singleSpaced line) :
    eighthPiece line = addressField line := by
  by_cases hne : line = []
  · rw [hne]; rfl
  · rw [eighthPiece, addressField, whitespaceFields_of_singleSpaced line h hne]

theorem length_of_singleSpaced (line : Str) (h : singleSpaced line) :
    (Split line ' ').length = 8 ↔ (whitespaceFields line).length = 8 := by
  by_cases hne : line = []
  · rw [hne]; decide
  · rw [whitespaceFields_of_singleSpaced line h hne]

theorem ReplaceAll_append (old : Char) (new x y : Str) :
    ReplaceAll (x ++ y) old new = ReplaceAll x old new ++ ReplaceAll y old new := by
  induction x with
  | nil => rfl
  | cons c cs ih =>
    by_cases hc : c = old
    · rw [List.cons_append, ReplaceAll, if_pos hc, ReplaceAll, if_pos hc, ih, List.append_assoc]
    · rw [List.cons_append, ReplaceAll, if_neg hc, ReplaceAll, if_neg hc, ih, List.cons_append]

theorem ReplaceAll_of_all (old : Char) (l : Str) (h : ∀ c ∈ l, c = old) :
    ReplaceAll l old [] = [] := by
  induction l with
  | nil => rfl
  | cons c cs ih =>
    rw [ReplaceAll, if_pos (h c (List.mem_cons_self _ _)), List.nil_append]
    exact ih (fun x hx => h x (List.mem_cons_of_mem _ hx))

theorem ReplaceAll_of_not_mem (old : Char) (new t : Str) (h : old ∉ t) :
    ReplaceAll t old new = t := by
  induction t with
  | nil => rfl
  | cons c cs ih =>
    simp only [List.mem_cons, not_or] at h
    rw [ReplaceAll, if_neg (fun e => h.1 e.symm), ih h.2]

theorem ReplaceAll_eq_trimSentinel (a : Str) (h : '@' ∉ trimSentinel a) :
    ReplaceAll a '@' [] = trimSentinel a := by
  obtain ⟨r, hr, hall, _⟩ :=
    trimRight_spec (fun c => decide (c = '@')) (a.dropWhile (fun c => decide (c = '@')))
  have ha : a = a.takeWhile (fun c => decide (c = '@')) ++ (trimSentinel a ++ r) := by
    rw [trimSentinel, ← hr, List.takeWhile_append_dropWhile]
  have h1 : ReplaceAll (a.takeWhile (fun c => decide (c = '@'))) '@' [] = [] :=
    ReplaceAll_of_all '@' _ (fun c hc => of_decide_eq_true
      (List.mem_takeWhile_imp (p := fun c => decide (c = '@')) hc))
  have h2 : ReplaceAll r '@' [] = [] :=
    ReplaceAll_of_all '@' _ (fun c hc => of_decide_eq_true (hall c hc))
  calc ReplaceAll a '@' []
      = ReplaceAll (a.takeWhile (fun c => decide (c = '@')) ++ (trimSentinel a ++ r)) '@' [] :=
        congrArg (fun x => ReplaceAll x '@' []) ha
    _ = trimSentinel a := by
        rw [ReplaceAll_append, ReplaceAll_append, h1, h2, ReplaceAll_of_not_mem '@' [] _ h,
          List.nil_append, List.append_nil]

theorem passesGuards_iff_qualifies (re : Regexp) (line : Str) (h : plainLine line) :
    passesGuards re line ↔ qualifies re line := by
  rw [passesGuards, qualifies, eighthPiece_of_singleSpaced line h.1,
    length_of_singleSpaced line h.1]

theorem storedKey_eq_normalizedAddr (line : Str) (h : plainLine line) :
    storedKey line = normalizedAddr line := by
  rw [storedKey, eighthPiece_of_singleSpaced line h.1]
  exact ReplaceAll_eq_trimSentinel _ h.2

/-! ## Discovery in the notions of the specification -/

/-- C3, as amended: on a snapshot text all of whose lines are plain (white space
only as single spaces between fields, no `@` strictly inside an address field),
each Endpoint returned by `parseSocketAddrs` carries the tags of the first
qualifying line, in text order, that normalizes to its identity, whatever the
later lines with the same identity capture.  The tags map has one key per
distinct name of a named capture group (the whole match and the unnamed groups
add none), and the value of a name is the text matched, in that first line's
address field, by the last group bearing the name; so when no later group
repeats its name, a named group is a key and its value is the text the group
matched.  Qualifying is having eight whitespace-separated fields the eighth of
which matches; normalizing is removing `@` at the head and at the tail. -/
theorem parseSocketAddrs_first_line_tags (re : Regexp) (body : Str)
    (socketAddrs : GoMap socketAddr) (k : Str) (sa : socketAddr)
    (hplain : ∀ line ∈ Split body '\n', plainLine line)
    (hok : parseSocketAddrs (some re) body = .ok socketAddrs) (hmem : (k, sa) ∈ socketAddrs) :
    ∃ pre line post, Split body '\n' = pre ++ line :: post ∧
      qualifies re line ∧ normalizedAddr line = k ∧
      (∀ l ∈ pre, qualifies re l → normalizedAddr l ≠ k) ∧
      (mapKeys sa.tags).Nodup ∧
      (∀ n, n ∈ mapKeys sa.tags ↔ n ≠ [] ∧ ∃ j : Nat, j ≠ 0 ∧ re.SubexpNames[j]? = some n) ∧
      (∀ (j : Nat) (n : Str), j ≠ 0 → n ≠ [] → re.SubexpNames[j]? = some n →
        (∀ j2 : Nat, j < j2 → re.SubexpNames[j2]? ≠ some n) →
        List.lookup n sa.tags = some ((re.FindStringSubmatch (addressField line)).getD j [])) := by
  simp only [parseSocketAddrs, Except.ok.injEq] at hok
  rw [← hok] at hmem
  rcases foldl_parseLine_first re _ [] k sa hmem with
    h | ⟨_, pre, line, post, hls, hq, hn, hpre, hsa⟩
  · exact absurd h (List.not_mem_nil _)
  · have hline : plainLine line := hplain line (by rw [hls]; simp)
    have hprel : ∀ l ∈ pre, plainLine l := fun l hl => hplain l (by rw [hls]; simp [hl])
    refine ⟨pre, line, post, hls, (passesGuards_iff_qualifies re line hline).1 hq, ?_, ?_, ?_,
      ?_, ?_⟩
    · rw [← storedKey_eq_normalizedAddr line hline]; exact hn
    · intro l hl hql
      rw [← storedKey_eq_normalizedAddr l (hprel l hl)]
      exact hpre l hl ((passesGuards_iff_qualifies re l (hprel l hl)).2 hql)
    · rw [hsa]
      exact tagsLoop_nodup _ _ 0 [] List.nodup_nil
    · intro n
      rw [hsa]
      simp only [entryOf]
      rw [tagsLoop_keys]
      simp [mapKeys]
    · intro j n hj hn2 hname hlast
      rw [hsa]
      simp only [entryOf]
      rw [tagsLoop_lookup_last _ _ 0 [] j n hname (by omega) hn2 hlast,
        eighthPiece_of_singleSpaced line hline.1]
      simp

/-- Witness of C3 as amended: the two lines of `twinBody` are plain and
normalize to `/x/1/y`, the group `head` matching `@` in the first and nothing
in the second; the Endpoint has the tag of the first line. -/
theorem parseSocketAddrs_first_line_tags_witness :
    parseSocketAddrs (some twinPattern) twinBody =
        .ok [("/x/1/y".toList, { addr := "/x/1/y".toList, tags := [("head".toList, "@".toList)] })] ∧
    ∃ pre line post, Split twinBody '\n' = pre ++ line :: post ∧
      qualifies twinPattern line ∧ normalizedAddr line = "/x/1/y".toList ∧
      (∀ l ∈ pre, qualifies twinPattern l → normalizedAddr l ≠ "/x/1/y".toList) ∧
      (mapKeys [("head".toList, "@".toList)]).Nodup ∧
      (∀ n, n ∈ mapKeys [("head".toList, "@".toList)] ↔
        n ≠ [] ∧ ∃ j : Nat, j ≠ 0 ∧ twinPattern.SubexpNames[j]? = some n) ∧
      (∀ (j : Nat) (n : Str), j ≠ 0 → n ≠ [] → twinPattern.SubexpNames[j]? = some n →
        (∀ j2 : Nat, j < j2 → twinPattern.SubexpNames[j2]? ≠ some n) →
        List.lookup n [("head".toList, "@".toList)] =
          some ((twinPattern.FindStringSubmatch (addressField line)).getD j [])) :=
  ⟨by rfl,
   parseSocketAddrs_first_line_tags twinPattern twinBody
     [("/x/1/y".toList, { addr := "/x/1/y".toList, tags := [("head".toList, "@".toList)] })]
     "/x/1/y".toList { addr := "/x/1/y".toList, tags := [("head".toList, "@".toList)] }
     (by decide) (by rfl) (List.mem_singleton.2 rfl)⟩

/-- C1, the code at two failing inputs.  First, `insideLine` and `endsLine`
both qualify for `betweenPattern` and their normalized addresses `a@b` and `ab`
differ, so the claim asks for two Endpoints keyed `a@b` and `ab`; the program
returns the single Endpoint `ab`, with the tags of `insideLine`.  Second,
`paddedLine` has eight whitespace-separated fields and its address field `@g@`
matches `gPattern`, so the claim asks for the Endpoint `g`; the program returns
none. -/
theorem qualifying_lines_lost :
    qualifies betweenPattern insideLine ∧ qualifies betweenPattern endsLine ∧
    normalizedAddr insideLine = "a@b".toList ∧ normalizedAddr endsLine = "ab".toList ∧
    parseSocketAddrs (some betweenPattern) (joinLines [insideLine, endsLine] '\n') =
      .ok [("ab".toList, { addr := "ab".toList, tags := [("n".toList, "a@b".toList)] })] ∧
    normalizedAddr insideLine ∉
      mapKeys [("ab".toList, ({ addr := "ab".toList, tags := [("n".toList, "a@b".toList)] } : socketAddr))] ∧
    (whitespaceFields paddedLine).length = 8 ∧
    addressField paddedLine = "@g@".toList ∧
    qualifies gPattern paddedLine ∧
    normalizedAddr paddedLine = "g".toList ∧
    parseSocketAddrs (some gPattern) paddedLine = .ok [] := by
  refine ⟨by decide, by decide, by decide, by decide, by rfl, by decide, by decide, by decide,
    by decide, by decide, by rfl⟩

end AbstractSocketProxy
